import Mathlib

/-!
Verification of the client-side position/ordering and reconciliation engine of
the grid-planning app.

Two data models coexist in the source and are embedded here:

* `UsePosts`: the stable-id model of the usePosts hook (src/unnamed/part_009 and
  src/unnamed/part_010): rows with an explicit integer position field, persisted
  in a relational store that enforces a uniqueness constraint on
  (feed_id, position) per individual row write.
* `SnapshotApp`: the array-index-is-identity snapshot model of the App component
  (src/unnamed/part_000): cells identified by 1-based index, saved by a
  delete-all-then-rewrite-all cycle against a key-value server.

The external store is modelled explicitly: a database is a list of rows; an
update keyed by id is applied to every matching row; the store rejects a row
write whose (feed_id, position) pair is already held by another row.  Network
failures are modelled by an oracle (failAt) naming the index of the write of a
reconciliation that fails, mirroring that any awaited call may reject.
-/

namespace UsePosts

/-- The Post row of the usePosts hook (src/unnamed/part_009, lines 4-12).
Ids and feed ids are opaque generated tokens in the source; they are modelled
as naturals.  Timestamps are opaque ISO strings. -/
structure Post where
  id : Nat
  feed_id : Nat
  caption : Option String
  scheduled_time : Option String
  position : Int
  created_at : String
  updated_at : String
deriving DecidableEq, Repr

/-- The per-feed uniqueness invariant enforced by the store as
UNIQUE(feed_id, position): no two rows of the same feed hold the same
position. -/
def PosUnique (db : List Post) : Prop :=
  db.Pairwise fun a b => a.feed_id = b.feed_id → a.position ≠ b.position

instance (db : List Post) : Decidable (PosUnique db) := by
  unfold PosUnique
  infer_instance

/-- Primary-key wellformedness of the store: row ids are pairwise distinct. -/
def IdsNodup (db : List Post) : Prop :=
  (db.map Post.id).Nodup

instance (db : List Post) : Decidable (IdsNodup db) :=
  inferInstanceAs (Decidable ((db.map Post.id).Nodup))

/-- One update write issued by a reconciliation:
supabase.from(posts).update(payload).eq(id, w.id).  The payload sets
position := w.position, and sets updated_at to the current time exactly when
`touch` is true (the offset pass of reorderPosts omits updated_at). -/
structure WJob where
  id : Nat
  position : Int
  touch : Bool
deriving DecidableEq, Repr

/-- Effect of the write `w` on a single row. -/
def jobRow (now : String) (w : WJob) (r : Post) : Post :=
  if r.id = w.id then
    { r with position := w.position, updated_at := if w.touch then now else r.updated_at }
  else r

/-- Effect of the write `w` on the whole table (update ... eq id). -/
def applyJob (now : String) (db : List Post) (w : WJob) : List Post :=
  db.map (jobRow now w)

/-- Table state after a sequence of writes, all applied. -/
def applyJobs (now : String) (db : List Post) (ws : List WJob) : List Post :=
  ws.foldl (applyJob now) db

/-- The intermediate table states after each individual write of the sequence
completes, in order. -/
def traceJobs (now : String) (db : List Post) : List WJob → List (List Post)
  | [] => []
  | w :: ws => applyJob now db w :: traceJobs now (applyJob now db w) ws

/-- Error conditions surfaced by the store / the hook. -/
inductive DbErr where
  | constraint
  | notFound
  | transient
  | feedRequired
deriving DecidableEq, Repr

/-- The store accepts the write `w` iff the written row's (feed_id, position)
pair would not collide with another existing row.  A write whose id matches no
row updates nothing and succeeds. -/
def jobOk (db : List Post) (w : WJob) : Bool :=
  match db.find? (fun r => r.id = w.id) with
  | none => true
  | some row => ! db.any (fun r => r.id ≠ w.id ∧ r.feed_id = row.feed_id ∧ r.position = w.position)

/-- Issue the writes strictly sequentially, each awaited before the next.
A write fails either because the network oracle `failAt` names its index or
because the store rejects it (uniqueness constraint); the first failure stops
the sequence and is returned. -/
def runJobs (now : String) (failAt : Option Nat) : List Post → List WJob → Nat → List Post × Option DbErr
  | db, [], _ => (db, none)
  | db, w :: ws, k =>
    if failAt = some k then (db, some .transient)
    else if jobOk db w then runJobs now failAt (applyJob now db w) ws (k + 1)
    else (db, some .constraint)

/-- The sentinel position used by swapPosts (src/unnamed/part_009, line 168). -/
def tempPosition : Int := 999999

/-- The write sequence of swapPosts (src/unnamed/part_009, lines 170-193):
post1 to the sentinel, post2 to post1's old position, post1 to post2's old
position. -/
def swapJobs (postId1 postId2 : Nat) (pos1 pos2 : Int) : List WJob :=
  [⟨postId1, tempPosition, true⟩, ⟨postId2, pos1, true⟩, ⟨postId1, pos2, true⟩]

/-- The offset constant of reorderPosts (src/unnamed/part_009, line 124). -/
def reorderOffset : Int := 10000

/-- Pass 1 of reorderPosts: for i in 0..N-1, write position i + offset to the
i-th reordered post, without touching updated_at. -/
def offsetJobs (rps : List Post) : List WJob :=
  rps.enum.map fun ip => ⟨ip.2.id, reorderOffset + ip.1, false⟩

/-- Pass 2 of reorderPosts: for i in 0..N-1, write the i-th reordered post's
target position, touching updated_at. -/
def settleJobs (rps : List Post) : List WJob :=
  rps.map fun p => ⟨p.id, p.position, true⟩

/-- The full write sequence of reorderPosts (src/unnamed/part_009, lines
121-148): the offset pass followed by the settle pass. -/
def reorderJobs (rps : List Post) : List WJob :=
  offsetJobs rps ++ settleJobs rps

/-- sort((a, b) => a.position - b.position) on the local cache. -/
def sortByPosition (l : List Post) : List Post :=
  l.insertionSort fun a b => a.position ≤ b.position

/-- State visible to one usePosts hook instance: the feed it is bound to
(possibly undefined), the external table, and the local cached list. -/
structure HookState where
  feedId : Option Nat
  db : List Post
  posts : List Post
deriving DecidableEq, Repr

/-- swapPosts (src/unnamed/part_009, lines 158-209): look both posts up in the
local cache, throw notFound if either is missing, otherwise issue the three
sentinel-swap writes; on success update the local cache by exchanging the two
positions and re-sorting; on failure rethrow and leave the cache alone. -/
def swapPosts (st : HookState) (postId1 postId2 : Nat) (now : String) (failAt : Option Nat) :
    HookState × Option DbErr :=
  match st.posts.find? (fun p => p.id = postId1), st.posts.find? (fun p => p.id = postId2) with
  | some post1, some post2 =>
    let run := runJobs now failAt st.db (swapJobs postId1 postId2 post1.position post2.position) 0
    match run.2 with
    | some e => ({ st with db := run.1 }, some e)
    | none =>
      let newPosts := sortByPosition (st.posts.map fun p =>
        if p.id = postId1 then { p with position := post2.position }
        else if p.id = postId2 then { p with position := post1.position }
        else p)
      ({ st with db := run.1, posts := newPosts }, none)
  | _, _ => (st, some .notFound)

/-- reorderPosts (src/unnamed/part_009, lines 121-156): offset pass then settle
pass; on success replace the local cache by the argument list as is; on failure
rethrow and leave the cache alone. -/
def reorderPosts (st : HookState) (reorderedPosts : List Post) (now : String) (failAt : Option Nat) :
    HookState × Option DbErr :=
  let run := runJobs now failAt st.db (reorderJobs reorderedPosts) 0
  match run.2 with
  | some e => ({ st with db := run.1 }, some e)
  | none => ({ st with db := run.1, posts := reorderedPosts }, none)

/-- createPost (src/unnamed/part_009, lines 48-74): throws when the hook has no
feed id; otherwise inserts a row (caption normalised by caption-or-null, which
maps the empty string to null) and appends the returned row to the sorted
cache.  The store generates the primary key; this is modelled by the `newId`
argument together with the store rejecting an insert whose key or
(feed_id, position) pair already exists. -/
def createPost (st : HookState) (position : Int) (caption : Option String)
    (scheduledTime : Option String) (newId : Nat) (now : String) : HookState × Option DbErr :=
  match st.feedId with
  | none => (st, some .feedRequired)
  | some fid =>
    if st.db.any (fun r => r.id = newId) then (st, some .constraint)
    else if st.db.any (fun r => r.feed_id = fid ∧ r.position = position) then (st, some .constraint)
    else
      let cap : Option String :=
        match caption with
        | some s => if s = "" then none else some s
        | none => none
      let row : Post :=
        { id := newId, feed_id := fid, caption := cap, scheduled_time := scheduledTime,
          position := position, created_at := now, updated_at := now }
      ({ st with db := st.db ++ [row], posts := sortByPosition (st.posts ++ [row]) }, none)

/-- The updates argument of updatePost: each field is written only when
present — except that the source spreads updates and then always sets
scheduled_time (to null when the argument is absent or null), so
scheduled_time is unconditionally overwritten. -/
structure PostUpdates where
  caption : Option String
  scheduled_time : Option String
  position : Option Int
deriving DecidableEq, Repr

/-- updatePost (src/unnamed/part_009, lines 76-107): single-row update by id
followed by select().single(), which fails with notFound when the id matches no
row; a provided position that collides with another row of the same feed is
rejected by the store; on success the cache replaces the matching entry by the
returned row and re-sorts. -/
def updatePost (st : HookState) (id : Nat) (u : PostUpdates) (now : String) :
    HookState × Option DbErr :=
  match st.db.find? (fun r => r.id = id) with
  | none => (st, some .notFound)
  | some row =>
    let conflict : Bool :=
      match u.position with
      | some p => st.db.any (fun r => r.id ≠ id ∧ r.feed_id = row.feed_id ∧ r.position = p)
      | none => false
    if conflict then (st, some .constraint)
    else
      let appl : Post → Post := fun r =>
        { r with
          caption := match u.caption with | some s => some s | none => r.caption,
          scheduled_time := u.scheduled_time,
          position := u.position.getD r.position,
          updated_at := now }
      let data := appl row
      let newPosts := sortByPosition (st.posts.map fun p => if p.id = id then data else p)
      ({ st with db := st.db.map fun r => if r.id = id then appl r else r,
                 posts := newPosts }, none)

/-- deletePost (src/unnamed/part_009, lines 109-119): delete by id (deleting a
missing id is not an error) and drop the entry from the cache. -/
def deletePost (st : HookState) (id : Nat) : HookState × Option DbErr :=
  ({ st with db := st.db.filter (fun r => r.id ≠ id),
             posts := st.posts.filter (fun p => p.id ≠ id) }, none)

/-- One public operation of the hook, with the nondeterministic inputs (store
key, wall clock, failure oracle) made explicit. -/
inductive Op where
  | create (position : Int) (caption scheduledTime : Option String) (newId : Nat) (now : String)
  | update (id : Nat) (u : PostUpdates) (now : String)
  | delete (id : Nat)
  | swap (postId1 postId2 : Nat) (now : String) (failAt : Option Nat)
  | reorder (reorderedPosts : List Post) (now : String) (failAt : Option Nat)

/-- Execute one public operation. -/
def stepOp (st : HookState) : Op → HookState × Option DbErr
  | .create p c s i n => createPost st p c s i n
  | .update i u n => updatePost st i u n
  | .delete i => deletePost st i
  | .swap a b n f => swapPosts st a b n f
  | .reorder l n f => reorderPosts st l n f

/-- Execute a sequence of public operations, keeping the state each leaves
behind (also after a failed one: completed writes are never rolled back). -/
def runOps (st : HookState) (ops : List Op) : HookState :=
  ops.foldl (fun s op => (stepOp s op).1) st

/-- Cumulative effect of a write sequence on one row (writes are keyed by id,
so rows evolve independently). -/
def rowsAfter (now : String) (ws : List WJob) (r : Post) : Post :=
  ws.foldl (fun r w => jobRow now w r) r

/-- Wellformedness of a bulk-reorder call: the store is wellformed, the target
list carries pairwise distinct ids and pairwise distinct target positions, all
targets lie below the offset, every listed id is a row of feed F, and the list
covers every row of feed F. -/
def ReorderCore (db : List Post) (F : Nat) (rps : List Post) : Prop :=
  IdsNodup db ∧ PosUnique db ∧
  (rps.map Post.id).Nodup ∧
  (rps.map Post.position).Nodup ∧
  (∀ p ∈ rps, p.position < reorderOffset) ∧
  (∀ p ∈ rps, ∃ r ∈ db, r.id = p.id ∧ r.feed_id = F) ∧
  (∀ r ∈ db, r.feed_id = F → r.id ∈ rps.map Post.id)

instance (db : List Post) (F : Nat) (rps : List Post) : Decidable (ReorderCore db F rps) := by
  unfold ReorderCore
  infer_instance

/-- Positions of feed F are either in the normal range (below the offset) or
already parked at the offset slot the reorder assigns to their id — the shape
of any starting state reachable by interrupting the offset pass. -/
def OffsetOk (db : List Post) (F : Nat) (rps : List Post) : Prop :=
  ∀ r ∈ db, r.feed_id = F → r.position < reorderOffset ∨
    ∃ ip ∈ rps.enum, ip.2.id = r.id ∧ r.position = reorderOffset + ip.1

instance (db : List Post) (F : Nat) (rps : List Post) : Decidable (OffsetOk db F rps) := by
  unfold OffsetOk
  infer_instance

/-- Hypotheses of an untouched (fully in-range) starting state for a bulk
reorder of feed F. -/
def ReorderHyps (db : List Post) (F : Nat) (rps : List Post) : Prop :=
  ReorderCore db F rps ∧ ∀ r ∈ db, r.feed_id = F → r.position < reorderOffset

instance (db : List Post) (F : Nat) (rps : List Post) : Decidable (ReorderHyps db F rps) := by
  unfold ReorderHyps
  infer_instance

/-- The local cache is in ascending position order. -/
def SortedByPos (l : List Post) : Prop :=
  l.Pairwise fun a b => a.position ≤ b.position

instance (l : List Post) : Decidable (SortedByPos l) := by
  unfold SortedByPos
  infer_instance

end UsePosts

namespace SnapshotApp

/-- The Post cell of the snapshot-model App (src/unnamed/part_000, lines
149-156): identity is the 1-based grid index, all payload fields optional. -/
structure Post where
  id : Nat
  image : Option String
  imagePath : Option String
  caption : Option String
  scheduledTime : Option String
  notes : Option String
deriving DecidableEq, Repr

/-- A cell with no payload. -/
def emptyCell (i : Nat) : Post :=
  { id := i, image := none, imagePath := none, caption := none,
    scheduledTime := none, notes := none }

/-- handleSwapPosts (src/unnamed/part_000, lines 832-863): find both cells; if
either is missing return the list unchanged; otherwise exchange image,
imagePath, caption and scheduledTime between the two cells, keeping ids.  The
object literals in the source carry no notes field, so both swapped cells end
up with undefined notes. -/
def handleSwapPosts (prev : List Post) (dragId dropId : Nat) : List Post :=
  match prev.find? (fun p => p.id = dragId), prev.find? (fun p => p.id = dropId) with
  | some dragPost, some dropPost =>
    prev.map fun post =>
      if post.id = dragId then
        { id := dragId, image := dropPost.image, imagePath := dropPost.imagePath,
          caption := dropPost.caption, scheduledTime := dropPost.scheduledTime, notes := none }
      else if post.id = dropId then
        { id := dropId, image := dragPost.image, imagePath := dragPost.imagePath,
          caption := dragPost.caption, scheduledTime := dragPost.scheduledTime, notes := none }
      else post
  | _, _ => prev

/-- A row POSTed to the server by performSave; the server keys it by
user and id, so position identity is the id itself. -/
structure ServerPost where
  id : Nat
  image : Option String
  caption : Option String
  scheduledTime : Option String
  notes : Option String
deriving DecidableEq, Repr

/-- or-null normalisation used by the save body: maps the empty string (and
absence) to null. -/
def orNull (s : Option String) : Option String :=
  match s with
  | some s => if s = "" then none else some s
  | none => none

/-- performSave (src/unnamed/part_000, lines 489-615), the delete-all-then-
rewrite-all cycle: after deleting every stored post, each cell holding an image
is saved with id := its visual position (array index + 1).  The resulting
stored set is exactly this list of rows. -/
def performSaveRows (posts : List Post) : List ServerPost :=
  ((posts.enum.map fun ip => (ip.2, ip.1 + 1)).filter fun pv => pv.1.image.isSome).map fun pv =>
    { id := pv.2, image := pv.1.image, caption := orNull pv.1.caption,
      scheduledTime := orNull pv.1.scheduledTime, notes := orNull pv.1.notes }

/-- Math.max over the saved ids (Math.max(...sortedPosts.map(p => p.id))). -/
def maxId (saved : List Post) : Nat :=
  (saved.map Post.id).foldl max 0

/-- The ID-keyed map built by loadPosts: sort by id, then Map.set each entry in
order, so for a duplicated id the last entry of the sorted list wins. -/
def postsMapGet (saved : List Post) (i : Nat) : Option Post :=
  ((saved.insertionSort fun a b => a.id ≤ b.id).reverse).find? (fun p => p.id = i)

/-- The reconstruction loop of loadPosts (src/unnamed/part_000, lines 339-373),
taken on the nonempty branch: for i from 1 to max(maxId, 9), emit the saved
post with id i (re-labelled id := i) or a synthesized empty cell. -/
def loadPostsReconstruct (saved : List Post) : List Post :=
  let minLength := max (maxId saved) 9
  (List.range minLength).map fun k =>
    match postsMapGet saved (k + 1) with
    | some savedPost =>
      { id := k + 1, image := savedPost.image, imagePath := savedPost.imagePath,
        caption := savedPost.caption, scheduledTime := savedPost.scheduledTime,
        notes := savedPost.notes }
    | none => emptyCell (k + 1)

end SnapshotApp

namespace FeedEditorPage

open UsePosts

/-- handleSwapPosts of the feed editor page
(src/src/app/pages/FeedEditorPage.tsx, lines 109-137): find both posts in the
cache and silently return when either is missing; otherwise exchange the two
array entries, relabel every position to its array index and run the bulk
reorder; a reorder failure is caught and surfaced as a toast, returned here as
the error component. -/
def handleSwapPosts (st : HookState) (dragId dropId : Nat) (now : String) (failAt : Option Nat) :
    HookState × Option DbErr :=
  match st.posts.find? (fun p => p.id = dragId), st.posts.find? (fun p => p.id = dropId) with
  | some dragPost, some dropPost =>
    let dragIndex := st.posts.findIdx (fun p => p.id = dragId)
    let dropIndex := st.posts.findIdx (fun p => p.id = dropId)
    let reordered := (st.posts.set dragIndex dropPost).set dropIndex dragPost
    let updatedPosts := reordered.enum.map fun ip => { ip.2 with position := (ip.1 : Int) }
    reorderPosts st updatedPosts now failAt
  | _, _ => (st, none)

end FeedEditorPage

namespace Ex

/-- A feed-1 row at position 0. -/
def pA : UsePosts.Post :=
  { id := 1, feed_id := 1, caption := some "c1", scheduled_time := none,
    position := 0, created_at := "t0", updated_at := "t0" }

/-- A feed-1 row parked exactly at the swap sentinel position. -/
def pS : UsePosts.Post :=
  { id := 2, feed_id := 1, caption := none, scheduled_time := none,
    position := 999999, created_at := "t0", updated_at := "t0" }

/-- A feed-1 row at position 5. -/
def pB : UsePosts.Post :=
  { id := 2, feed_id := 1, caption := some "c2", scheduled_time := some "s2",
    position := 5, created_at := "t0", updated_at := "t0" }

/-- Hook state whose feed holds a row at the sentinel position. -/
def stBad : UsePosts.HookState :=
  { feedId := some 1, db := [pA, pS], posts := [pA, pS] }

/-- An ordinary wellformed hook state over feed 1. -/
def stGood : UsePosts.HookState :=
  { feedId := some 1, db := [pA, pB], posts := [pA, pB] }

/-- A full-feed reorder target: pB first, pA second, dense positions. -/
def rTargets : List UsePosts.Post :=
  [{ pB with position := 0 }, { pA with position := 1 }]

/-- A short operation sequence exercising every public operation. -/
def opSeq : List UsePosts.Op :=
  [.create 7 (some "c3") none 3 "t1",
   .swap 1 2 "t2" none,
   .reorder rTargets "t3" none,
   .update 1 ⟨some "c9", none, some 9⟩ "t4",
   .swap 1 2 "t5" (some 1),
   .delete 2]

/-- A snapshot-model cell with an image and notes. -/
def b1 : SnapshotApp.Post :=
  { id := 1, image := some "img1", imagePath := none,
    caption := some "cap1", scheduledTime := none, notes := some "note1" }

/-- A second snapshot-model cell with an image and notes. -/
def b2 : SnapshotApp.Post :=
  { id := 2, image := some "img2", imagePath := some "path2",
    caption := none, scheduledTime := some "time2", notes := some "note2" }

/-- A sparse persisted set: ids 5 and 2, holes elsewhere. -/
def savedSparse : List SnapshotApp.Post :=
  [{ b1 with id := 5 }, b2]

end Ex

namespace UsePosts

lemma jobRow_id (now : String) (w : WJob) (r : Post) : (jobRow now w r).id = r.id := by
  unfold jobRow
  split <;> rfl

lemma jobRow_feed (now : String) (w : WJob) (r : Post) : (jobRow now w r).feed_id = r.feed_id := by
  unfold jobRow
  split <;> rfl

lemma jobRow_of_ne (now : String) (w : WJob) (r : Post) (h : r.id ≠ w.id) : jobRow now w r = r := by
  unfold jobRow
  simp [h]

lemma jobRow_of_eq (now : String) (w : WJob) (r : Post) (h : r.id = w.id) :
    jobRow now w r =
      { r with position := w.position, updated_at := if w.touch then now else r.updated_at } := by
  unfold jobRow
  simp [h]

lemma rowsAfter_nil (now : String) (r : Post) : rowsAfter now [] r = r := rfl

lemma rowsAfter_cons (now : String) (w : WJob) (ws : List WJob) (r : Post) :
    rowsAfter now (w :: ws) r = rowsAfter now ws (jobRow now w r) := rfl

lemma rowsAfter_append (now : String) (xs ys : List WJob) (r : Post) :
    rowsAfter now (xs ++ ys) r = rowsAfter now ys (rowsAfter now xs r) :=
  List.foldl_append _ _ _ _

lemma rowsAfter_id (now : String) (ws : List WJob) (r : Post) : (rowsAfter now ws r).id = r.id := by
  induction ws generalizing r with
  | nil => rfl
  | cons w ws ih => rw [rowsAfter_cons, ih, jobRow_id]

lemma rowsAfter_feed (now : String) (ws : List WJob) (r : Post) :
    (rowsAfter now ws r).feed_id = r.feed_id := by
  induction ws generalizing r with
  | nil => rfl
  | cons w ws ih => rw [rowsAfter_cons, ih, jobRow_feed]

lemma rowsAfter_of_ne (now : String) (ws : List WJob) (r : Post) (h : ∀ w ∈ ws, r.id ≠ w.id) :
    rowsAfter now ws r = r := by
  induction ws with
  | nil => rfl
  | cons w ws ih =>
    rw [rowsAfter_cons, jobRow_of_ne now w r (h w (by simp))]
    exact ih fun w' hw' => h w' (by simp [hw'])

lemma applyJobs_nil (now : String) (db : List Post) : applyJobs now db [] = db := rfl

lemma applyJobs_cons (now : String) (db : List Post) (w : WJob) (ws : List WJob) :
    applyJobs now db (w :: ws) = applyJobs now (applyJob now db w) ws := rfl

lemma applyJobs_append (now : String) (db : List Post) (xs ys : List WJob) :
    applyJobs now db (xs ++ ys) = applyJobs now (applyJobs now db xs) ys :=
  List.foldl_append _ _ _ _

lemma applyJobs_eq_map (now : String) (ws : List WJob) (db : List Post) :
    applyJobs now db ws = db.map (rowsAfter now ws) := by
  induction ws generalizing db with
  | nil =>
    rw [applyJobs_nil]
    exact (List.map_id' db).symm
  | cons w ws ih =>
    rw [applyJobs_cons, ih, applyJob, List.map_map]
    rfl

lemma posUnique_pair {db : List Post} (h : PosUnique db) {a b : Post} (ha : a ∈ db) (hb : b ∈ db)
    (hne : a ≠ b) (hf : a.feed_id = b.feed_id) : a.position ≠ b.position := by
  have hsym : Symmetric fun x y : Post => x.feed_id = y.feed_id → x.position ≠ y.position := by
    intro x y hxy h1 h2
    exact hxy h1.symm h2.symm
  exact h.forall hsym ha hb hne hf

lemma ids_pairwise {db : List Post} (h : IdsNodup db) : db.Pairwise fun a b => a.id ≠ b.id := by
  unfold IdsNodup List.Nodup at h
  exact List.pairwise_map.mp h

lemma id_inj {db : List Post} (h : IdsNodup db) {a b : Post} (ha : a ∈ db) (hb : b ∈ db)
    (hid : a.id = b.id) : a = b := by
  by_contra hne
  have hsym : Symmetric fun x y : Post => x.id ≠ y.id := fun x y hxy h1 => hxy h1.symm
  exact (ids_pairwise h).forall hsym ha hb hne hid

lemma idsNodup_applyJob {now : String} {db : List Post} {w : WJob} (h : IdsNodup db) :
    IdsNodup (applyJob now db w) := by
  unfold IdsNodup applyJob
  rw [List.map_map]
  have : (Post.id ∘ jobRow now w) = Post.id := by
    funext r
    exact jobRow_id now w r
  rw [this]
  exact h

lemma find?_id_some {db : List Post} {i : Nat} {row : Post}
    (h : db.find? (fun r => r.id = i) = some row) : row ∈ db ∧ row.id = i := by
  refine ⟨List.mem_of_find?_eq_some h, ?_⟩
  have := List.find?_some h
  simpa using this

lemma any_eq_false_forall {db : List Post} {p : Post → Prop} [DecidablePred p]
    (h : db.any (fun r => p r) = false) : ∀ r ∈ db, ¬ p r := by
  intro r hr hp
  have : db.any (fun r => p r) = true := List.any_eq_true.mpr ⟨r, hr, by simpa using hp⟩
  rw [h] at this
  cases this

lemma jobOk_some {db : List Post} {w : WJob} {row : Post}
    (hfind : db.find? (fun r => r.id = w.id) = some row) :
    jobOk db w =
      (! db.any fun r => r.id ≠ w.id ∧ r.feed_id = row.feed_id ∧ r.position = w.position) := by
  unfold jobOk
  rw [hfind]

lemma posUnique_applyJob {now : String} {db : List Post} {w : WJob}
    (h1 : IdsNodup db) (h2 : PosUnique db) (hok : jobOk db w = true) :
    PosUnique (applyJob now db w) := by
  unfold applyJob PosUnique
  rw [List.pairwise_map]
  cases hfind : db.find? (fun r => r.id = w.id) with
  | none =>
    have hne : ∀ r ∈ db, r.id ≠ w.id := by
      intro r hr
      have := List.find?_eq_none.mp hfind r hr
      simpa using this
    refine h2.imp_of_mem ?_
    intro a b ha hb hab
    rw [jobRow_of_ne now w a (hne a ha), jobRow_of_ne now w b (hne b hb)]
    exact hab
  | some row =>
    obtain ⟨hrowmem, hrowid⟩ := find?_id_some hfind
    have hanyf : db.any
        (fun r => r.id ≠ w.id ∧ r.feed_id = row.feed_id ∧ r.position = w.position) = false := by
      unfold jobOk at hok
      rw [hfind] at hok
      simpa using hok
    have hany := any_eq_false_forall hanyf
    have PW := (ids_pairwise h1).and h2
    refine PW.imp_of_mem ?_
    intro a b ha hb hab hfeed
    obtain ⟨hidab, hR⟩ := hab
    rw [jobRow_feed, jobRow_feed] at hfeed
    by_cases haw : a.id = w.id
    · have haeq : a = row := id_inj h1 ha hrowmem (haw.trans hrowid.symm)
      have hbw : b.id ≠ w.id := fun hbw => hidab (haw.trans hbw.symm)
      rw [jobRow_of_eq now w a haw, jobRow_of_ne now w b hbw]
      have hb' := hany b hb
      push_neg at hb'
      have : b.position ≠ w.position := hb' hbw (by rw [← haeq]; exact hfeed.symm)
      exact fun hc => this (by simpa using hc.symm)
    · by_cases hbw : b.id = w.id
      · have hbeq : b = row := id_inj h1 hb hrowmem (hbw.trans hrowid.symm)
        rw [jobRow_of_ne now w a haw, jobRow_of_eq now w b hbw]
        have ha' := hany a ha
        push_neg at ha'
        have : a.position ≠ w.position := ha' haw (by rw [← hbeq]; exact hfeed)
        exact fun hc => this (by simpa using hc)
      · rw [jobRow_of_ne now w a haw, jobRow_of_ne now w b hbw]
        exact hR hfeed

end UsePosts

namespace UsePosts

lemma runJobs_wf (now : String) (failAt : Option Nat) (ws : List WJob) :
    ∀ (db : List Post) (k : Nat), IdsNodup db → PosUnique db →
      IdsNodup (runJobs now failAt db ws k).1 ∧ PosUnique (runJobs now failAt db ws k).1 := by
  induction ws with
  | nil => exact fun db k h1 h2 => ⟨h1, h2⟩
  | cons w ws ih =>
    intro db k h1 h2
    unfold runJobs
    split
    · exact ⟨h1, h2⟩
    · split
      · next hok => exact ih _ (k + 1) (idsNodup_applyJob h1) (posUnique_applyJob h1 h2 hok)
      · exact ⟨h1, h2⟩

lemma runJobs_prefix (now : String) (failAt : Option Nat) (ws : List WJob) :
    ∀ (db : List Post) (k : Nat), ∃ j, j ≤ ws.length ∧
      (runJobs now failAt db ws k).1 = applyJobs now db (ws.take j) ∧
      ((runJobs now failAt db ws k).2 = none → j = ws.length) := by
  induction ws with
  | nil => exact fun db k => ⟨0, by simp, rfl, fun _ => rfl⟩
  | cons w ws ih =>
    intro db k
    unfold runJobs
    split
    · exact ⟨0, by simp, rfl, by simp⟩
    · split
      · next hok =>
        obtain ⟨j, hj1, hj2, hj3⟩ := ih (applyJob now db w) (k + 1)
        refine ⟨j + 1, by simpa using Nat.succ_le_succ hj1, ?_, ?_⟩
        · rw [List.take_succ_cons, applyJobs_cons]
          exact hj2
        · intro h
          simpa using congrArg Nat.succ (hj3 h)
      · exact ⟨0, by simp, rfl, by simp⟩

lemma runJobs_fails (now : String) (m : Nat) (ws : List WJob) :
    ∀ (db : List Post) (k : Nat), k ≤ m → m < k + ws.length →
      (runJobs now (some m) db ws k).2 ≠ none := by
  induction ws with
  | nil =>
    intro db k h1 h2
    simp at h2
    omega
  | cons w ws ih =>
    intro db k h1 h2
    unfold runJobs
    split
    · simp
    · next hne =>
      split
      · next hok =>
        refine ih _ (k + 1) ?_ ?_
        · have : m ≠ k := fun h => hne (by rw [h])
          omega
        · simp at h2 ⊢
          omega
      · simp

lemma runJobs_ok (now : String) (ws : List WJob) :
    ∀ (db : List Post) (k : Nat), IdsNodup db →
      (∀ j, j < ws.length → PosUnique (applyJobs now db (ws.take (j + 1)))) →
      runJobs now none db ws k = (applyJobs now db ws, none) := by
  induction ws with
  | nil => exact fun db k _ _ => rfl
  | cons w ws ih =>
    intro db k h1 hpre
    unfold runJobs
    rw [if_neg (by simp)]
    have hok : jobOk db w = true := by
      by_contra hok
      cases hfind : db.find? (fun r => r.id = w.id) with
      | none =>
        exact hok (by unfold jobOk; rw [hfind])
      | some row =>
        obtain ⟨hrowmem, hrowid⟩ := find?_id_some hfind
        rw [jobOk_some hfind] at hok
        have hany : db.any
            (fun r => r.id ≠ w.id ∧ r.feed_id = row.feed_id ∧ r.position = w.position) = true := by
          cases hb : db.any
              (fun r => r.id ≠ w.id ∧ r.feed_id = row.feed_id ∧ r.position = w.position) with
          | false =>
            rw [hb] at hok
            simp at hok
          | true => rfl
        obtain ⟨r, hr, hp⟩ := List.any_eq_true.mp hany
        have hp' : r.id ≠ w.id ∧ r.feed_id = row.feed_id ∧ r.position = w.position := by
          simpa using hp
        have huniq := hpre 0 (by simp)
        have huniq' : PosUnique (applyJob now db w) := by
          simpa [applyJobs] using huniq
        have hmem1 : jobRow now w row ∈ applyJob now db w := List.mem_map.mpr ⟨row, hrowmem, rfl⟩
        have hmem2 : jobRow now w r ∈ applyJob now db w := List.mem_map.mpr ⟨r, hr, rfl⟩
        have hne : jobRow now w row ≠ jobRow now w r := by
          intro he
          have hids := congrArg Post.id he
          rw [jobRow_id, jobRow_id] at hids
          exact hp'.1 (hids ▸ hrowid)
        have hfeeds : (jobRow now w row).feed_id = (jobRow now w r).feed_id := by
          rw [jobRow_feed, jobRow_feed]
          exact hp'.2.1.symm
        have hposne := posUnique_pair huniq' hmem1 hmem2 hne hfeeds
        apply hposne
        rw [jobRow_of_eq now w row hrowid, jobRow_of_ne now w r hp'.1]
        simpa using hp'.2.2.symm
    rw [if_pos hok]
    rw [ih (applyJob now db w) (k + 1) (idsNodup_applyJob h1) ?_]
    · rfl
    · intro j hj
      have := hpre (j + 1) (by simpa using Nat.succ_lt_succ hj)
      rw [List.take_succ_cons, applyJobs_cons] at this
      exact this

end UsePosts

namespace UsePosts

lemma wf_append_row {db : List Post} {row : Post} (h1 : IdsNodup db) (h2 : PosUnique db)
    (hid : ∀ r ∈ db, r.id ≠ row.id)
    (hpos : ∀ r ∈ db, r.feed_id = row.feed_id → r.position ≠ row.position) :
    IdsNodup (db ++ [row]) ∧ PosUnique (db ++ [row]) := by
  constructor
  · unfold IdsNodup
    rw [List.map_append]
    rw [List.nodup_append]
    refine ⟨h1, by simp, ?_⟩
    intro x hx
    simp only [List.map_cons, List.map_nil, List.mem_singleton]
    obtain ⟨r, hr, hrx⟩ := List.mem_map.mp hx
    intro hcontra
    exact hid r hr (by rw [hrx, hcontra])
  · unfold PosUnique
    rw [List.pairwise_append]
    refine ⟨h2, by simp, ?_⟩
    intro a ha b hb
    rw [List.mem_singleton] at hb
    subst hb
    exact hpos a ha

lemma idsNodup_update_fun {db : List Post} (h1 : IdsNodup db) (i : Nat) (f : Post → Post)
    (hfid : ∀ r, (f r).id = r.id) :
    IdsNodup (db.map fun r => if r.id = i then f r else r) := by
  unfold IdsNodup
  rw [List.map_map]
  have : (Post.id ∘ fun r => if r.id = i then f r else r) = Post.id := by
    funext r
    by_cases h : r.id = i <;> simp [h, hfid]
  rw [this]
  exact h1

lemma posUnique_update_fun {db : List Post} (h1 : IdsNodup db) (h2 : PosUnique db) (i : Nat)
    (f : Post → Post) (hffeed : ∀ r, (f r).feed_id = r.feed_id)
    (hsafe : ∀ row ∈ db, row.id = i →
      ∀ r ∈ db, r.id ≠ i → r.feed_id = row.feed_id → r.position ≠ (f row).position) :
    PosUnique (db.map fun r => if r.id = i then f r else r) := by
  unfold PosUnique
  rw [List.pairwise_map]
  have PW := (ids_pairwise h1).and h2
  refine PW.imp_of_mem ?_
  intro a b ha hb hab hfeed
  obtain ⟨hidab, hR⟩ := hab
  by_cases haw : a.id = i
  · have hbw : b.id ≠ i := fun hbw => hidab (haw.trans hbw.symm)
    rw [if_pos haw, if_neg hbw] at hfeed ⊢
    rw [hffeed] at hfeed
    exact fun hc => hsafe a ha haw b hb hbw hfeed.symm hc.symm
  · by_cases hbw : b.id = i
    · rw [if_neg haw, if_pos hbw] at hfeed ⊢
      rw [hffeed] at hfeed
      exact hsafe b hb hbw a ha haw hfeed
    · rw [if_neg haw, if_neg hbw] at hfeed ⊢
      exact hR hfeed

lemma wf_sublist {db db' : List Post} (hsub : db'.Sublist db)
    (h1 : IdsNodup db) (h2 : PosUnique db) : IdsNodup db' ∧ PosUnique db' :=
  ⟨(hsub.map Post.id).nodup h1, h2.sublist hsub⟩

lemma wf_createPost (st : HookState) (pos : Int) (cap sch : Option String) (newId : Nat)
    (now : String) (h1 : IdsNodup st.db) (h2 : PosUnique st.db) :
    IdsNodup (createPost st pos cap sch newId now).1.db ∧
      PosUnique (createPost st pos cap sch newId now).1.db := by
  unfold createPost
  cases st.feedId with
  | none => exact ⟨h1, h2⟩
  | some fid =>
    dsimp only
    by_cases hc1 : st.db.any (fun r => r.id = newId) = true
    · simp only [hc1, if_true]
      exact ⟨h1, h2⟩
    · rw [if_neg hc1]
      by_cases hc2 : st.db.any (fun r => r.feed_id = fid ∧ r.position = pos) = true
      · simp only [hc2, if_true]
        exact ⟨h1, h2⟩
      · rw [if_neg hc2]
        have hid := any_eq_false_forall (p := fun r => r.id = newId) (Bool.eq_false_iff.mpr hc1)
        have hpos := any_eq_false_forall (p := fun r => r.feed_id = fid ∧ r.position = pos)
          (Bool.eq_false_iff.mpr hc2)
        refine wf_append_row h1 h2 (fun r hr => hid r hr) ?_
        intro r hr hfeed hp
        exact hpos r hr ⟨hfeed, hp⟩

lemma wf_updatePost (st : HookState) (i : Nat) (u : PostUpdates) (now : String)
    (h1 : IdsNodup st.db) (h2 : PosUnique st.db) :
    IdsNodup (updatePost st i u now).1.db ∧ PosUnique (updatePost st i u now).1.db := by
  unfold updatePost
  cases hfind : st.db.find? (fun r => r.id = i) with
  | none => exact ⟨h1, h2⟩
  | some row =>
    obtain ⟨hrowmem, hrowid⟩ := find?_id_some hfind
    dsimp only
    by_cases hc : (match u.position with
      | some p => st.db.any (fun r => r.id ≠ i ∧ r.feed_id = row.feed_id ∧ r.position = p)
      | none => false) = true
    · simp only [hc, if_true]
      exact ⟨h1, h2⟩
    · rw [if_neg hc]
      refine ⟨idsNodup_update_fun h1 i _ (fun r => rfl), ?_⟩
      refine posUnique_update_fun h1 h2 i _ (fun r => rfl) ?_
      intro r0 hr0 hr0i r hr hri hfeed
      cases hup : u.position with
      | some p =>
        rw [hup] at hc
        have hforall := any_eq_false_forall
          (p := fun r => r.id ≠ i ∧ r.feed_id = row.feed_id ∧ r.position = p)
          (Bool.eq_false_iff.mpr hc)
        have hr0row : r0 = row := id_inj h1 hr0 hrowmem (hr0i.trans hrowid.symm)
        have : ¬(r.id ≠ i ∧ r.feed_id = row.feed_id ∧ r.position = p) := hforall r hr
        push_neg at this
        have hposp : r.position ≠ p := this hri (by rw [← hr0row]; exact hfeed)
        simpa [hup] using hposp
      | none =>
        have : r.position ≠ r0.position :=
          posUnique_pair h2 hr hr0 (fun he => hri (he ▸ hr0i)) hfeed
        simpa [hup] using this

lemma wf_deletePost (st : HookState) (i : Nat) (h1 : IdsNodup st.db) (h2 : PosUnique st.db) :
    IdsNodup (deletePost st i).1.db ∧ PosUnique (deletePost st i).1.db :=
  wf_sublist (List.filter_sublist st.db) h1 h2

lemma wf_swapPosts (st : HookState) (postId1 postId2 : Nat) (now : String) (failAt : Option Nat)
    (h1 : IdsNodup st.db) (h2 : PosUnique st.db) :
    IdsNodup (swapPosts st postId1 postId2 now failAt).1.db ∧
      PosUnique (swapPosts st postId1 postId2 now failAt).1.db := by
  unfold swapPosts
  cases hf1 : st.posts.find? (fun p => p.id = postId1) with
  | none => exact ⟨h1, h2⟩
  | some post1 =>
    cases hf2 : st.posts.find? (fun p => p.id = postId2) with
    | none => exact ⟨h1, h2⟩
    | some post2 =>
      have hwf := runJobs_wf now failAt
        (swapJobs postId1 postId2 post1.position post2.position) st.db 0 h1 h2
      cases hrun : (runJobs now failAt st.db
          (swapJobs postId1 postId2 post1.position post2.position) 0).2 with
      | none =>
        simp only [hrun]
        exact hwf
      | some e =>
        simp only [hrun]
        exact hwf

lemma wf_reorderPosts (st : HookState) (rps : List Post) (now : String) (failAt : Option Nat)
    (h1 : IdsNodup st.db) (h2 : PosUnique st.db) :
    IdsNodup (reorderPosts st rps now failAt).1.db ∧
      PosUnique (reorderPosts st rps now failAt).1.db := by
  unfold reorderPosts
  have hwf := runJobs_wf now failAt (reorderJobs rps) st.db 0 h1 h2
  cases hrun : (runJobs now failAt st.db (reorderJobs rps) 0).2 with
  | none =>
    simp only [hrun]
    exact hwf
  | some e =>
    simp only [hrun]
    exact hwf

lemma wf_stepOp (st : HookState) (op : Op) (h1 : IdsNodup st.db) (h2 : PosUnique st.db) :
    IdsNodup (stepOp st op).1.db ∧ PosUnique (stepOp st op).1.db := by
  cases op with
  | create p c s i n => exact wf_createPost st p c s i n h1 h2
  | update i u n => exact wf_updatePost st i u n h1 h2
  | delete i => exact wf_deletePost st i h1 h2
  | swap a b n f => exact wf_swapPosts st a b n f h1 h2
  | reorder l n f => exact wf_reorderPosts st l n f h1 h2

lemma wf_runOps (ops : List Op) :
    ∀ (st : HookState), IdsNodup st.db → PosUnique st.db →
      IdsNodup (runOps st ops).db ∧ PosUnique (runOps st ops).db := by
  induction ops with
  | nil => exact fun st h1 h2 => ⟨h1, h2⟩
  | cons op ops ih =>
    intro st h1 h2
    obtain ⟨h1', h2'⟩ := wf_stepOp st op h1 h2
    exact ih (stepOp st op).1 h1' h2'

end UsePosts

namespace SnapshotApp

lemma pairwise_fst_lt_enumFrom {α : Type} (l : List α) :
    ∀ n : Nat, (l.enumFrom n).Pairwise fun a b => a.1 < b.1 := by
  induction l with
  | nil => intro n; simp [List.enumFrom]
  | cons x xs ih =>
    intro n
    simp only [List.enumFrom]
    refine List.Pairwise.cons ?_ (ih (n + 1))
    intro b hb
    obtain ⟨i, y⟩ := b
    have := (List.mem_enumFrom hb).1
    simpa using Nat.lt_of_succ_le this

lemma performSaveRows_ids_nodup (posts : List Post) :
    ((performSaveRows posts).map ServerPost.id).Nodup := by
  unfold performSaveRows
  rw [List.map_map]
  have h0 : posts.enum.Pairwise fun a b => a.1 < b.1 := by
    rw [List.enum_eq_enumFrom]
    exact pairwise_fst_lt_enumFrom posts 0
  have h1 : (posts.enum.map fun ip => (ip.2, ip.1 + 1)).Pairwise
      (fun a b => a.2 < b.2 : Post × Nat → Post × Nat → Prop) :=
    List.pairwise_map.mpr (h0.imp fun hab => Nat.succ_lt_succ hab)
  have h2 := List.Pairwise.sublist
    (List.filter_sublist (p := fun pv => pv.1.image.isSome)
      (posts.enum.map fun ip => (ip.2, ip.1 + 1))) h1
  unfold List.Nodup
  exact List.pairwise_map.mpr (h2.imp fun hab => Nat.ne_of_lt hab)

end SnapshotApp

/-- C2: for every container and every sequence of public operations of the
stable-id hook (create, update, delete, swap, reorder) from a wellformed
store, the store keeps the per-feed position-uniqueness invariant — the writes
of a failed reconciliation included, so in particular it holds after each
operation that completes successfully; and in the snapshot model, the row set
performSave rewrites carries pairwise distinct position identities. -/
theorem c2_uniqueness_at_rest (st : UsePosts.HookState) (ops : List UsePosts.Op)
    (h1 : UsePosts.IdsNodup st.db) (h2 : UsePosts.PosUnique st.db)
    (postsB : List SnapshotApp.Post) :
    UsePosts.PosUnique (UsePosts.runOps st ops).db ∧
      ((SnapshotApp.performSaveRows postsB).map SnapshotApp.ServerPost.id).Nodup :=
  ⟨(UsePosts.wf_runOps ops st h1 h2).2, SnapshotApp.performSaveRows_ids_nodup postsB⟩

/-- Witness for C2 at a concrete state and operation sequence. -/
theorem c2_uniqueness_at_rest_witness :
    UsePosts.PosUnique (UsePosts.runOps Ex.stGood Ex.opSeq).db ∧
      ((SnapshotApp.performSaveRows [Ex.b1, Ex.b2]).map SnapshotApp.ServerPost.id).Nodup :=
  c2_uniqueness_at_rest Ex.stGood Ex.opSeq (by decide) (by decide) [Ex.b1, Ex.b2]

namespace UsePosts

lemma posUnique_of_map {db : List Post} (h1 : IdsNodup db) (h2 : PosUnique db) (f : Post → Post)
    (hfid : ∀ r, (f r).id = r.id) (hffeed : ∀ r, (f r).feed_id = r.feed_id)
    (hsafe : ∀ a ∈ db, ∀ b ∈ db, a.id ≠ b.id → a.feed_id = b.feed_id →
      (f a).position ≠ (f b).position) :
    PosUnique (db.map f) := by
  unfold PosUnique
  rw [List.pairwise_map]
  refine ((ids_pairwise h1).and h2).imp_of_mem ?_
  intro a b ha hb hab hfeed
  rw [hffeed, hffeed] at hfeed
  exact hsafe a ha b hb hab.1 hfeed

lemma swap_trace_unique {db : List Post} {post1 post2 : Post} {postId1 postId2 : Nat}
    (now : String) (h1 : IdsNodup db) (h2 : PosUnique db)
    (hmem1 : post1 ∈ db) (hmem2 : post2 ∈ db)
    (hid1 : post1.id = postId1) (hid2 : post2.id = postId2)
    (hne : postId1 ≠ postId2) (hfeed : post2.feed_id = post1.feed_id)
    (hb : ∀ r ∈ db, r.feed_id = post1.feed_id → r.position < tempPosition) :
    ∀ db' ∈ traceJobs now db (swapJobs postId1 postId2 post1.position post2.position),
      PosUnique db' := by
  have e1 : ∀ {a : Post}, a ∈ db → a.id = postId1 → a = post1 := fun ha h =>
    id_inj h1 ha hmem1 (h.trans hid1.symm)
  have e2 : ∀ {a : Post}, a ∈ db → a.id = postId2 → a = post2 := fun ha h =>
    id_inj h1 ha hmem2 (h.trans hid2.symm)
  have hp12 : post1 ≠ post2 := fun he => hne (hid1 ▸ hid2 ▸ congrArg Post.id he)
  have hpos21 : post2.position ≠ post1.position := posUnique_pair h2 hmem2 hmem1 hp12.symm hfeed
  intro db' hdb'
  simp only [swapJobs, traceJobs, List.mem_cons, List.not_mem_nil, or_false] at hdb'
  rcases hdb' with h | h | h <;> subst h
  · -- state after write 1: post1 parked at the sentinel
    refine posUnique_of_map h1 h2 _ (fun r => jobRow_id _ _ r) (fun r => jobRow_feed _ _ r) ?_
    have key : ∀ c : Post,
        (jobRow now ⟨postId1, tempPosition, true⟩ c).position =
          if c.id = postId1 then tempPosition else c.position := by
      intro c
      by_cases h : c.id = postId1 <;> simp [jobRow, h]
    intro a ha b hb' hid hf
    rw [key a, key b]
    by_cases ha1 : a.id = postId1
    · rw [if_pos ha1]
      have hb1 : ¬ b.id = postId1 := fun hc => hid (ha1.trans hc.symm)
      rw [if_neg hb1]
      have : b.feed_id = post1.feed_id := by
        rw [← hf, ← e1 ha ha1]
      exact (ne_of_gt (hb b hb' this))
    · rw [if_neg ha1]
      by_cases hb1 : b.id = postId1
      · rw [if_pos hb1]
        have : a.feed_id = post1.feed_id := by
          rw [hf, ← e1 hb' hb1]
        exact ne_of_lt (hb a ha this)
      · rw [if_neg hb1]
        exact posUnique_pair h2 ha hb' (fun he => hid (congrArg Post.id he)) hf
  · -- state after write 2: post1 at the sentinel, post2 at post1's old slot
    rw [applyJob, applyJob, List.map_map]
    refine posUnique_of_map h1 h2 _
      (fun r => by rw [Function.comp_apply, jobRow_id, jobRow_id])
      (fun r => by rw [Function.comp_apply, jobRow_feed, jobRow_feed]) ?_
    have key : ∀ c : Post,
        ((jobRow now ⟨postId2, post1.position, true⟩ ∘
            jobRow now ⟨postId1, tempPosition, true⟩) c).position =
          if c.id = postId1 then tempPosition
          else if c.id = postId2 then post1.position else c.position := by
      intro c
      by_cases h : c.id = postId1
      · simp [jobRow, h, hne]
      · by_cases h' : c.id = postId2 <;> simp [jobRow, h, h', Ne.symm hne]
    intro a ha b hb' hid hf
    rw [key a, key b]
    by_cases ha1 : a.id = postId1
    · rw [if_pos ha1]
      have hb1 : ¬ b.id = postId1 := fun hc => hid (ha1.trans hc.symm)
      rw [if_neg hb1]
      have hbf : b.feed_id = post1.feed_id := by
        rw [← hf, ← e1 ha ha1]
      by_cases hb2 : b.id = postId2
      · rw [if_pos hb2]
        exact ne_of_gt (hb post1 hmem1 rfl)
      · rw [if_neg hb2]
        exact ne_of_gt (hb b hb' hbf)
    · rw [if_neg ha1]
      by_cases hb1 : b.id = postId1
      · rw [if_pos hb1]
        have haf : a.feed_id = post1.feed_id := by
          rw [hf, ← e1 hb' hb1]
        by_cases ha2 : a.id = postId2
        · rw [if_pos ha2]
          exact ne_of_lt (hb post1 hmem1 rfl)
        · rw [if_neg ha2]
          exact ne_of_lt (hb a ha haf)
      · rw [if_neg hb1]
        by_cases ha2 : a.id = postId2
        · rw [if_pos ha2]
          by_cases hb2 : b.id = postId2
          · exact absurd (ha2.trans hb2.symm) hid
          · rw [if_neg hb2]
            have hbp1 : b ≠ post1 := fun he => hb1 (he ▸ hid1)
            have hbf : post1.feed_id = b.feed_id := by
              rw [← hf, e2 ha ha2, hfeed]
            exact posUnique_pair h2 hmem1 hb' hbp1.symm hbf
        · rw [if_neg ha2]
          by_cases hb2 : b.id = postId2
          · rw [if_pos hb2]
            have hap1 : a ≠ post1 := fun he => ha1 (he ▸ hid1)
            have haf : a.feed_id = post1.feed_id := by
              rw [hf, e2 hb' hb2, hfeed]
            exact posUnique_pair h2 ha hmem1 hap1 haf
          · rw [if_neg hb2]
            exact posUnique_pair h2 ha hb' (fun he => hid (congrArg Post.id he)) hf
  · -- state after write 3: positions exchanged
    rw [applyJob, applyJob, applyJob, List.map_map, List.map_map]
    refine posUnique_of_map h1 h2 _
      (fun r => by
        rw [Function.comp_apply, Function.comp_apply, jobRow_id, jobRow_id, jobRow_id])
      (fun r => by
        rw [Function.comp_apply, Function.comp_apply, jobRow_feed, jobRow_feed, jobRow_feed]) ?_
    have key : ∀ c : Post,
        (jobRow now ⟨postId1, post2.position, true⟩
            (jobRow now ⟨postId2, post1.position, true⟩
              (jobRow now ⟨postId1, tempPosition, true⟩ c))).position =
          if c.id = postId1 then post2.position
          else if c.id = postId2 then post1.position else c.position := by
      intro c
      by_cases h : c.id = postId1
      · simp [jobRow, h, hne]
      · by_cases h' : c.id = postId2 <;> simp [jobRow, h, h', Ne.symm hne]
    intro a ha b hb' hid hf
    simp only [Function.comp_apply]
    rw [key a, key b]
    by_cases ha1 : a.id = postId1
    · rw [if_pos ha1]
      have hb1 : ¬ b.id = postId1 := fun hc => hid (ha1.trans hc.symm)
      rw [if_neg hb1]
      by_cases hb2 : b.id = postId2
      · rw [if_pos hb2]
        exact hpos21
      · rw [if_neg hb2]
        have hbp2 : post2 ≠ b := fun he => hb2 (he ▸ hid2)
        have hbf : post2.feed_id = b.feed_id := by
          rw [hfeed, ← hf, ← e1 ha ha1]
        exact posUnique_pair h2 hmem2 hb' hbp2 hbf
    · rw [if_neg ha1]
      by_cases hb1 : b.id = postId1
      · rw [if_pos hb1]
        by_cases ha2 : a.id = postId2
        · rw [if_pos ha2]
          exact fun hc => hpos21 (by rw [hc])
        · rw [if_neg ha2]
          have hap2 : a ≠ post2 := fun he => ha2 (he ▸ hid2)
          have haf : a.feed_id = post2.feed_id := by
            rw [hf, e1 hb' hb1, ← hfeed]
          exact posUnique_pair h2 ha hmem2 hap2 haf
      · rw [if_neg hb1]
        by_cases ha2 : a.id = postId2
        · rw [if_pos ha2]
          by_cases hb2 : b.id = postId2
          · exact absurd (ha2.trans hb2.symm) hid
          · rw [if_neg hb2]
            have hbp1 : post1 ≠ b := fun he => hb1 (he ▸ hid1)
            have hbf : post1.feed_id = b.feed_id := by
              rw [← hf, e2 ha ha2, hfeed]
            exact posUnique_pair h2 hmem1 hb' hbp1 hbf
        · rw [if_neg ha2]
          by_cases hb2 : b.id = postId2
          · rw [if_pos hb2]
            have hap1 : a ≠ post1 := fun he => ha1 (he ▸ hid1)
            have haf : a.feed_id = post1.feed_id := by
              rw [hf, e2 hb' hb2, hfeed]
            exact posUnique_pair h2 ha hmem1 hap1 haf
          · rw [if_neg hb2]
            exact posUnique_pair h2 ha hb' (fun he => hid (congrArg Post.id he)) hf

end UsePosts

namespace UsePosts

lemma map_nodup_inj {β : Type} {l : List Post} {f : Post → β} (h : (l.map f).Nodup)
    {a b : Post} (ha : a ∈ l) (hb : b ∈ l) (hfab : f a = f b) : a = b := by
  by_contra hne
  have hpw : l.Pairwise fun x y => f x ≠ f y := List.pairwise_map.mp h
  have hsym : Symmetric fun x y : Post => f x ≠ f y := fun x y hxy h1 => hxy h1.symm
  exact hpw.forall hsym ha hb hne hfab

lemma enumFrom_take {α : Type} (l : List α) :
    ∀ (n k : Nat), (List.enumFrom n l).take k = List.enumFrom n (l.take k) := by
  induction l with
  | nil => intro n k; simp
  | cons x xs ih =>
    intro n k
    cases k with
    | zero => simp
    | succ k => simp [List.enumFrom, ih (n + 1) k]

lemma mem_traceJobs {now : String} {db' : List Post} (ws : List WJob) :
    ∀ db : List Post, db' ∈ traceJobs now db ws →
      ∃ k, k < ws.length ∧ db' = applyJobs now db (ws.take (k + 1)) := by
  induction ws with
  | nil => intro db h; simp [traceJobs] at h
  | cons w ws ih =>
    intro db h
    rw [traceJobs, List.mem_cons] at h
    rcases h with h | h
    · exact ⟨0, by simp, by simpa [applyJobs] using h⟩
    · obtain ⟨k, hk, hdb⟩ := ih (applyJob now db w) h
      exact ⟨k + 1, by simpa using Nat.succ_lt_succ hk,
        by rw [List.take_succ_cons, applyJobs_cons]; exact hdb⟩

lemma offsetJobs_length (rps : List Post) : (offsetJobs rps).length = rps.length := by
  simp [offsetJobs, List.enum_length]

lemma settleJobs_length (rps : List Post) : (settleJobs rps).length = rps.length := by
  simp [settleJobs]

lemma offsetJobs_take (rps : List Post) (k : Nat) :
    (offsetJobs rps).take k =
      (List.enumFrom 0 (rps.take k)).map fun ip => ⟨ip.2.id, reorderOffset + ip.1, false⟩ := by
  unfold offsetJobs
  rw [← List.map_take, List.enum_eq_enumFrom, enumFrom_take]

lemma settleJobs_take (rps : List Post) (m : Nat) :
    (settleJobs rps).take m = settleJobs (rps.take m) := by
  unfold settleJobs
  rw [← List.map_take]

lemma rowsAfter_offsetFrom (now : String) (l : List Post) :
    ∀ (n : Nat) (r : Post), (l.map Post.id).Nodup →
      rowsAfter now ((List.enumFrom n l).map fun ip => ⟨ip.2.id, reorderOffset + ip.1, false⟩) r =
        (match (List.enumFrom n l).find? (fun ip => ip.2.id = r.id) with
          | some ip => { r with position := reorderOffset + ip.1 }
          | none => r) := by
  induction l with
  | nil => intro n r _; rfl
  | cons x xs ih =>
    intro n r hnd
    simp only [List.enumFrom, List.map_cons]
    by_cases hr : x.id = r.id
    · rw [rowsAfter_cons]
      have hjr : jobRow now ⟨x.id, reorderOffset + (n : Int), false⟩ r =
          { r with position := reorderOffset + n } := by
        simp [jobRow, hr.symm]
      rw [hjr]
      have hne' : ∀ w ∈ (List.enumFrom (n + 1) xs).map
          (fun ip => (⟨ip.2.id, reorderOffset + ip.1, false⟩ : WJob)),
          ({ r with position := reorderOffset + (n : Int) } : Post).id ≠ w.id := by
        intro w hw
        obtain ⟨ip, hip, hw'⟩ := List.mem_map.mp hw
        obtain ⟨i, q⟩ := ip
        subst hw'
        have hq : q ∈ xs := by
          have hm := List.mem_enumFrom hip
          rw [hm.2.2]
          exact List.getElem_mem _
        have hxid : x.id ∉ xs.map Post.id := (List.nodup_cons.mp (by simpa using hnd)).1
        show r.id ≠ q.id
        intro hcontra
        exact hxid (by rw [hr, hcontra]; exact List.mem_map.mpr ⟨q, hq, rfl⟩)
      rw [rowsAfter_of_ne now _ _ hne']
      rw [List.find?_cons]
      simp [hr]
    · rw [rowsAfter_cons, jobRow_of_ne now _ r (by simpa using fun he => hr he.symm)]
      have hnd' : (xs.map Post.id).Nodup := (List.nodup_cons.mp (by simpa using hnd)).2
      rw [ih (n + 1) r hnd']
      rw [List.find?_cons]
      simp [hr]

end UsePosts

namespace UsePosts

lemma rowsAfter_settle (now : String) (l : List Post) :
    ∀ r : Post, (l.map Post.id).Nodup →
      rowsAfter now (settleJobs l) r =
        (match l.find? (fun p => p.id = r.id) with
          | some p => { r with position := p.position, updated_at := now }
          | none => r) := by
  induction l with
  | nil => intro r _; rfl
  | cons x xs ih =>
    intro r hnd
    simp only [settleJobs, List.map_cons]
    by_cases hr : x.id = r.id
    · rw [rowsAfter_cons]
      have hjr : jobRow now ⟨x.id, x.position, true⟩ r =
          { r with position := x.position, updated_at := now } := by
        simp [jobRow, hr.symm]
      rw [hjr]
      have hne' : ∀ w ∈ xs.map (fun p => (⟨p.id, p.position, true⟩ : WJob)),
          ({ r with position := x.position, updated_at := now } : Post).id ≠ w.id := by
        intro w hw
        obtain ⟨q, hq, hw'⟩ := List.mem_map.mp hw
        subst hw'
        have hxid : x.id ∉ xs.map Post.id := (List.nodup_cons.mp (by simpa using hnd)).1
        show r.id ≠ q.id
        intro hcontra
        exact hxid (by rw [hr, hcontra]; exact List.mem_map.mpr ⟨q, hq, rfl⟩)
      rw [rowsAfter_of_ne now _ _ hne']
      rw [List.find?_cons]
      simp [hr]
    · rw [rowsAfter_cons, jobRow_of_ne now _ r (by simpa using fun he => hr he.symm)]
      have hnd' : (xs.map Post.id).Nodup := (List.nodup_cons.mp (by simpa using hnd)).2
      rw [show (xs.map fun p => (⟨p.id, p.position, true⟩ : WJob)) = settleJobs xs from rfl]
      rw [ih r hnd']
      rw [List.find?_cons]
      simp [hr]

lemma enumFrom_mem_eq {α : Type} {n i : Nat} {x y : α} {l : List α}
    (hx : (i, x) ∈ List.enumFrom n l) (hy : (i, y) ∈ List.enumFrom n l) : x = y := by
  have h1 := List.mem_enumFrom hx
  have h2 := List.mem_enumFrom hy
  rw [h1.2.2, h2.2.2]

lemma mem_enumFrom_take {α : Type} {i : Nat} {q : α} {l : List α} {j : Nat}
    (h : (i, q) ∈ List.enumFrom 0 l) (hij : i < j) : (i, q) ∈ List.enumFrom 0 (l.take j) := by
  have hm := List.mem_enumFrom h
  have hlen : i < l.length := by simpa using hm.2.1
  rw [List.mem_iff_getElem?]
  refine ⟨i, ?_⟩
  rw [List.getElem?_enumFrom, List.getElem?_take, if_pos hij, List.getElem?_eq_getElem hlen]
  have hq : q = l[i] := by simpa using hm.2.2
  simp [hq]

lemma mem_enumFrom_of_mem {α : Type} {p : α} {l : List α} (h : p ∈ l) :
    ∃ i, (i, p) ∈ List.enumFrom 0 l := by
  obtain ⟨i, hi⟩ := List.mem_iff_getElem?.mp h
  refine ⟨i, ?_⟩
  rw [List.mem_iff_getElem?]
  refine ⟨i, ?_⟩
  rw [List.getElem?_enumFrom, hi]
  simp

lemma mem_take_of_mem_enumFrom_take {α : Type} {i : Nat} {q : α} {l : List α} {j : Nat}
    (h : (i, q) ∈ List.enumFrom 0 (l.take j)) : q ∈ l ∧ i < j ∧ i < l.length := by
  have hm := List.mem_enumFrom h
  have hlen : i < (l.take j).length := by simpa using hm.2.1
  have hij : i < j := lt_of_lt_of_le hlen (by simp [List.length_take])
  have hil : i < l.length := lt_of_lt_of_le hlen (by simp [List.length_take])
  refine ⟨?_, hij, hil⟩
  have hq : q = (l.take j)[i] := by simpa using hm.2.2
  rw [hq, List.getElem_take]
  exact List.getElem_mem _

lemma offsetJobs_eq (rps : List Post) :
    offsetJobs rps = (List.enumFrom 0 rps).map fun ip => ⟨ip.2.id, reorderOffset + ip.1, false⟩ := by
  unfold offsetJobs
  rw [List.enum_eq_enumFrom]

end UsePosts

namespace UsePosts

lemma offset_state_unique (now : String) (F : Nat) (rps db : List Post)
    (hcore : ReorderCore db F rps) (hoff : OffsetOk db F rps) (j : Nat) :
    PosUnique (applyJobs now db ((offsetJobs rps).take j)) := by
  obtain ⟨h1, h2, hrid, hrpos, hlt, hFmem, hcover⟩ := hcore
  rw [offsetJobs_take, applyJobs_eq_map]
  have hndL : ((rps.take j).map Post.id).Nodup :=
    ((List.take_sublist j rps).map Post.id).nodup hrid
  have hrowF : ∀ {r p : Post}, r ∈ db → p ∈ rps → p.id = r.id → r.feed_id = F := by
    intro r p hr hp hpr
    obtain ⟨row, hrow, hrowid, hrowFeed⟩ := hFmem p hp
    have heq : row = r := id_inj h1 hrow hr (hrowid.trans hpr)
    exact heq ▸ hrowFeed
  refine posUnique_of_map h1 h2 _ (fun r => rowsAfter_id _ _ r) (fun r => rowsAfter_feed _ _ r) ?_
  intro a ha b hb hid hf
  rw [rowsAfter_offsetFrom now (rps.take j) 0 a hndL, rowsAfter_offsetFrom now (rps.take j) 0 b hndL]
  cases hfa : (List.enumFrom 0 (rps.take j)).find? (fun ip => ip.2.id = a.id) with
  | some ipa =>
    obtain ⟨ia, pa⟩ := ipa
    have hpaid : pa.id = a.id := by simpa using List.find?_some hfa
    have hmemA := List.mem_of_find?_eq_some hfa
    obtain ⟨hpaRps, hiaj, hialen⟩ := mem_take_of_mem_enumFrom_take hmemA
    have haF : a.feed_id = F := hrowF ha hpaRps hpaid
    cases hfb : (List.enumFrom 0 (rps.take j)).find? (fun ip => ip.2.id = b.id) with
    | some ipb =>
      obtain ⟨ib, pb⟩ := ipb
      have hpbid : pb.id = b.id := by simpa using List.find?_some hfb
      have hmemB := List.mem_of_find?_eq_some hfb
      show reorderOffset + (ia : Int) ≠ reorderOffset + (ib : Int)
      intro hcontra
      have hiab : ia = ib := by omega
      subst hiab
      have hpab : pa = pb := enumFrom_mem_eq hmemA hmemB
      exact hid ((hpaid.symm.trans (congrArg Post.id hpab)).trans hpbid)
    | none =>
      have hbF : b.feed_id = F := hf ▸ haF
      show reorderOffset + (ia : Int) ≠ b.position
      rcases hoff b hb hbF with hsmall | ⟨ip, hip, hipid, hippos⟩
      · omega
      · obtain ⟨i0, q⟩ := ip
        rw [List.enum_eq_enumFrom] at hip
        have hqid : q.id = b.id := hipid
        have hi0 : ¬ i0 < j := by
          intro hi0j
          have hmem' := mem_enumFrom_take hip hi0j
          have := List.find?_eq_none.mp hfb _ hmem'
          simp [hqid] at this
        rw [hippos]
        have : ia ≠ i0 := by omega
        omega
  | none =>
    cases hfb : (List.enumFrom 0 (rps.take j)).find? (fun ip => ip.2.id = b.id) with
    | some ipb =>
      obtain ⟨ib, pb⟩ := ipb
      have hpbid : pb.id = b.id := by simpa using List.find?_some hfb
      have hmemB := List.mem_of_find?_eq_some hfb
      obtain ⟨hpbRps, hibj, hiblen⟩ := mem_take_of_mem_enumFrom_take hmemB
      have hbF : b.feed_id = F := hrowF hb hpbRps hpbid
      have haF : a.feed_id = F := hf.trans hbF
      show a.position ≠ reorderOffset + (ib : Int)
      rcases hoff a ha haF with hsmall | ⟨ip, hip, hipid, hippos⟩
      · omega
      · obtain ⟨i0, q⟩ := ip
        rw [List.enum_eq_enumFrom] at hip
        have hqid : q.id = a.id := hipid
        have hi0 : ¬ i0 < j := by
          intro hi0j
          have hmem' := mem_enumFrom_take hip hi0j
          have := List.find?_eq_none.mp hfa _ hmem'
          simp [hqid] at this
        rw [hippos]
        have : i0 ≠ ib := by omega
        omega
    | none =>
      show a.position ≠ b.position
      exact posUnique_pair h2 ha hb (fun he => hid (congrArg Post.id he)) hf

end UsePosts

namespace UsePosts

lemma mem_of_enumFrom_mem {α : Type} {i : Nat} {q : α} {l : List α}
    (h : (i, q) ∈ List.enumFrom 0 l) : q ∈ l ∧ i < l.length := by
  have hm := List.mem_enumFrom h
  have hlen : i < l.length := by simpa using hm.2.1
  refine ⟨?_, hlen⟩
  have hq : q = l[i] := by simpa using hm.2.2
  rw [hq]
  exact List.getElem_mem _

lemma rps_row_feed {db rps : List Post} {F : Nat} (h1 : IdsNodup db)
    (hFmem : ∀ p ∈ rps, ∃ r ∈ db, r.id = p.id ∧ r.feed_id = F)
    {r p : Post} (hr : r ∈ db) (hp : p ∈ rps) (hpr : p.id = r.id) : r.feed_id = F := by
  obtain ⟨row, hrow, hrowid, hrowFeed⟩ := hFmem p hp
  have heq : row = r := id_inj h1 hrow hr (hrowid.trans hpr)
  exact heq ▸ hrowFeed

lemma settle_state_unique (now : String) (F : Nat) (rps db : List Post)
    (hcore : ReorderCore db F rps) (m : Nat) :
    PosUnique (applyJobs now db (offsetJobs rps ++ (settleJobs rps).take m)) := by
  obtain ⟨h1, h2, hrid, hrpos, hlt, hFmem, hcover⟩ := hcore
  rw [applyJobs_append, applyJobs_eq_map, applyJobs_eq_map, List.map_map]
  have hndTake : ((rps.take m).map Post.id).Nodup :=
    ((List.take_sublist m rps).map Post.id).nodup hrid
  have hchar : ∀ r : Post,
      ((rowsAfter now ((settleJobs rps).take m) ∘ rowsAfter now (offsetJobs rps)) r).position =
        (match (rps.take m).find? (fun p => p.id = r.id) with
          | some p => p.position
          | none =>
            match (List.enumFrom 0 rps).find? (fun ip => ip.2.id = r.id) with
            | some ip => reorderOffset + (ip.1 : Int)
            | none => r.position) := by
    intro r
    rw [Function.comp_apply, settleJobs_take, rowsAfter_settle now (rps.take m) _ hndTake]
    rw [rowsAfter_id]
    cases hfind : (rps.take m).find? (fun p => p.id = r.id) with
    | some p => rfl
    | none =>
      rw [offsetJobs_eq, rowsAfter_offsetFrom now rps 0 r hrid]
      cases hfind2 : (List.enumFrom 0 rps).find? (fun ip => ip.2.id = r.id) with
      | some ip => rfl
      | none => rfl
  refine posUnique_of_map h1 h2 _
    (fun r => by rw [Function.comp_apply, rowsAfter_id, rowsAfter_id])
    (fun r => by rw [Function.comp_apply, rowsAfter_feed, rowsAfter_feed]) ?_
  intro a ha b hb hid hf
  rw [hchar a, hchar b]
  cases hfa : (rps.take m).find? (fun p => p.id = a.id) with
  | some pa =>
    have hpaid : pa.id = a.id := by simpa using List.find?_some hfa
    have hpaMem : pa ∈ rps := (List.take_sublist m rps).subset (List.mem_of_find?_eq_some hfa)
    have haF : a.feed_id = F := rps_row_feed h1 hFmem ha hpaMem hpaid
    cases hfb : (rps.take m).find? (fun p => p.id = b.id) with
    | some pb =>
      have hpbid : pb.id = b.id := by simpa using List.find?_some hfb
      have hpbMem : pb ∈ rps := (List.take_sublist m rps).subset (List.mem_of_find?_eq_some hfb)
      show pa.position ≠ pb.position
      intro hcontra
      have hpapb : pa = pb := map_nodup_inj hrpos hpaMem hpbMem hcontra
      exact hid ((hpaid.symm.trans (congrArg Post.id hpapb)).trans hpbid)
    | none =>
      have hbF : b.feed_id = F := hf ▸ haF
      have hbIn : b.id ∈ rps.map Post.id := hcover b hb hbF
      obtain ⟨q, hq, hqid⟩ := List.mem_map.mp hbIn
      cases hfb2 : (List.enumFrom 0 rps).find? (fun ip => ip.2.id = b.id) with
      | none =>
        obtain ⟨i, hiq⟩ := mem_enumFrom_of_mem hq
        have := List.find?_eq_none.mp hfb2 _ hiq
        simp [hqid] at this
      | some ip =>
        show pa.position ≠ reorderOffset + (ip.1 : Int)
        have := hlt pa hpaMem
        omega
  | none =>
    cases hfb : (rps.take m).find? (fun p => p.id = b.id) with
    | some pb =>
      have hpbid : pb.id = b.id := by simpa using List.find?_some hfb
      have hpbMem : pb ∈ rps := (List.take_sublist m rps).subset (List.mem_of_find?_eq_some hfb)
      have hbF : b.feed_id = F := rps_row_feed h1 hFmem hb hpbMem hpbid
      have haF : a.feed_id = F := hf.trans hbF
      have haIn : a.id ∈ rps.map Post.id := hcover a ha haF
      obtain ⟨q, hq, hqid⟩ := List.mem_map.mp haIn
      cases hfa2 : (List.enumFrom 0 rps).find? (fun ip => ip.2.id = a.id) with
      | none =>
        obtain ⟨i, hiq⟩ := mem_enumFrom_of_mem hq
        have := List.find?_eq_none.mp hfa2 _ hiq
        simp [hqid] at this
      | some ip =>
        show reorderOffset + (ip.1 : Int) ≠ pb.position
        have := hlt pb hpbMem
        omega
    | none =>
      cases hfa2 : (List.enumFrom 0 rps).find? (fun ip => ip.2.id = a.id) with
      | some ipa =>
        obtain ⟨ia, qa⟩ := ipa
        have hqaid : qa.id = a.id := by simpa using List.find?_some hfa2
        have hmemA := List.mem_of_find?_eq_some hfa2
        have hqaMem : qa ∈ rps := (mem_of_enumFrom_mem hmemA).1
        have haF : a.feed_id = F := rps_row_feed h1 hFmem ha hqaMem hqaid
        cases hfb2 : (List.enumFrom 0 rps).find? (fun ip => ip.2.id = b.id) with
        | some ipb =>
          obtain ⟨ib, qb⟩ := ipb
          have hqbid : qb.id = b.id := by simpa using List.find?_some hfb2
          have hmemB := List.mem_of_find?_eq_some hfb2
          show reorderOffset + (ia : Int) ≠ reorderOffset + (ib : Int)
          intro hcontra
          have hiab : ia = ib := by omega
          subst hiab
          have hqab : qa = qb := enumFrom_mem_eq hmemA hmemB
          exact hid ((hqaid.symm.trans (congrArg Post.id hqab)).trans hqbid)
        | none =>
          have hbF : b.feed_id = F := hf ▸ haF
          have hbIn : b.id ∈ rps.map Post.id := hcover b hb hbF
          obtain ⟨q, hq, hqid⟩ := List.mem_map.mp hbIn
          obtain ⟨i, hiq⟩ := mem_enumFrom_of_mem hq
          have := List.find?_eq_none.mp hfb2 _ hiq
          simp [hqid] at this
      | none =>
        cases hfb2 : (List.enumFrom 0 rps).find? (fun ip => ip.2.id = b.id) with
        | some ipb =>
          obtain ⟨ib, qb⟩ := ipb
          have hqbid : qb.id = b.id := by simpa using List.find?_some hfb2
          have hmemB := List.mem_of_find?_eq_some hfb2
          have hqbMem : qb ∈ rps := (mem_of_enumFrom_mem hmemB).1
          have hbF : b.feed_id = F := rps_row_feed h1 hFmem hb hqbMem hqbid
          have haF : a.feed_id = F := hf.trans hbF
          have haIn : a.id ∈ rps.map Post.id := hcover a ha haF
          obtain ⟨q, hq, hqid⟩ := List.mem_map.mp haIn
          obtain ⟨i, hiq⟩ := mem_enumFrom_of_mem hq
          have := List.find?_eq_none.mp hfa2 _ hiq
          simp [hqid] at this
        | none =>
          show a.position ≠ b.position
          exact posUnique_pair h2 ha hb (fun he => hid (congrArg Post.id he)) hf

end UsePosts

namespace UsePosts

lemma reorder_prefixes_unique (now : String) (F : Nat) (rps db : List Post)
    (hcore : ReorderCore db F rps) (hoff : OffsetOk db F rps) :
    ∀ k, PosUnique (applyJobs now db ((reorderJobs rps).take k)) := by
  intro k
  by_cases hk : k ≤ rps.length
  · have heq : (reorderJobs rps).take k = (offsetJobs rps).take k :=
      List.take_append_of_le_length (by rw [offsetJobs_length]; exact hk)
    rw [heq]
    exact offset_state_unique now F rps db hcore hoff k
  · obtain ⟨m, hm⟩ : ∃ m, k = rps.length + m := ⟨k - rps.length, by omega⟩
    subst hm
    have heq : (reorderJobs rps).take (rps.length + m) =
        offsetJobs rps ++ (settleJobs rps).take m := by
      unfold reorderJobs
      rw [← offsetJobs_length rps]
      exact List.take_append m
    rw [heq]
    exact settle_state_unique now F rps db hcore m

lemma reorder_trace_unique (now : String) (F : Nat) (rps db : List Post)
    (hcore : ReorderCore db F rps) (hoff : OffsetOk db F rps) :
    ∀ db' ∈ traceJobs now db (reorderJobs rps), PosUnique db' := by
  intro db' hdb'
  obtain ⟨k, hk, hdb⟩ := mem_traceJobs _ db hdb'
  rw [hdb]
  exact reorder_prefixes_unique now F rps db hcore hoff (k + 1)

lemma reorder_runJobs_ok (now : String) (F : Nat) (rps db : List Post)
    (hcore : ReorderCore db F rps) (hoff : OffsetOk db F rps) :
    runJobs now none db (reorderJobs rps) 0 = (applyJobs now db (reorderJobs rps), none) :=
  runJobs_ok now (reorderJobs rps) db 0 hcore.1
    (fun j _ => reorder_prefixes_unique now F rps db hcore hoff (j + 1))

lemma rowsAfter_reorder (now : String) (rps : List Post) (hrid : (rps.map Post.id).Nodup)
    (s : Post) :
    rowsAfter now (reorderJobs rps) s =
      (match rps.find? (fun p => p.id = s.id) with
        | some p => { s with position := p.position, updated_at := now }
        | none => s) := by
  unfold reorderJobs
  rw [rowsAfter_append, offsetJobs_eq, rowsAfter_offsetFrom now rps 0 s hrid]
  cases hfe : (List.enumFrom 0 rps).find? (fun ip => ip.2.id = s.id) with
  | none =>
    rw [rowsAfter_settle now rps s hrid]
  | some ip =>
    obtain ⟨i, q⟩ := ip
    have hqid : q.id = s.id := by simpa using List.find?_some hfe
    rw [rowsAfter_settle now rps _ hrid]
    rw [show ({ s with position := reorderOffset + (i : Int) } : Post).id = s.id from rfl]
    cases hfs : rps.find? (fun p => p.id = s.id) with
    | some p => rfl
    | none =>
      exfalso
      have hqmem := (mem_of_enumFrom_mem (List.mem_of_find?_eq_some hfe)).1
      have := List.find?_eq_none.mp hfs _ hqmem
      simp [hqid] at this

lemma mem_enumFrom_of_take {α : Type} {i : Nat} {q : α} {l : List α} {j : Nat}
    (h : (i, q) ∈ List.enumFrom 0 (l.take j)) : (i, q) ∈ List.enumFrom 0 l := by
  have hm := List.mem_enumFrom h
  have hlen : i < (l.take j).length := by simpa using hm.2.1
  have hil : i < l.length := lt_of_lt_of_le hlen (by simp [List.length_take])
  rw [List.mem_iff_getElem?]
  refine ⟨i, ?_⟩
  rw [List.getElem?_enumFrom, List.getElem?_eq_getElem hil]
  have hq : q = (l.take j)[i] := by simpa using hm.2.2
  rw [hq, List.getElem_take]
  simp

end UsePosts

namespace UsePosts

lemma idsNodup_applyJobs {now : String} {db : List Post} {ws : List WJob} (h : IdsNodup db) :
    IdsNodup (applyJobs now db ws) := by
  rw [applyJobs_eq_map]
  unfold IdsNodup
  rw [List.map_map]
  have hcomp : Post.id ∘ rowsAfter now ws = Post.id := funext fun r => rowsAfter_id now ws r
  rw [hcomp]
  exact h

lemma mem_applyJobs_of_mem {now : String} {ws : List WJob} {db : List Post} {r : Post}
    (hr : r ∈ db) : rowsAfter now ws r ∈ applyJobs now db ws := by
  rw [applyJobs_eq_map]
  exact List.mem_map.mpr ⟨r, hr, rfl⟩

lemma mem_applyJobs_elim {now : String} {ws : List WJob} {db : List Post} {x : Post}
    (hx : x ∈ applyJobs now db ws) : ∃ r ∈ db, x = rowsAfter now ws r := by
  rw [applyJobs_eq_map] at hx
  obtain ⟨r, hr, he⟩ := List.mem_map.mp hx
  exact ⟨r, hr, he.symm⟩

lemma reorder_partial_hyps (now : String) (F : Nat) (rps db : List Post) (k : Nat)
    (h : ReorderHyps db F rps) :
    ReorderCore (applyJobs now db ((offsetJobs rps).take k)) F rps ∧
      OffsetOk (applyJobs now db ((offsetJobs rps).take k)) F rps := by
  obtain ⟨⟨h1, h2, hrid, hrpos, hlt, hFmem, hcover⟩, hbound⟩ := h
  have hoff : OffsetOk db F rps := fun r hr hF => Or.inl (hbound r hr hF)
  have hndTake : ((rps.take k).map Post.id).Nodup :=
    ((List.take_sublist k rps).map Post.id).nodup hrid
  constructor
  · refine ⟨idsNodup_applyJobs h1,
      offset_state_unique now F rps db ⟨h1, h2, hrid, hrpos, hlt, hFmem, hcover⟩ hoff k,
      hrid, hrpos, hlt, ?_, ?_⟩
    · intro p hp
      obtain ⟨r, hr, hrid', hrF⟩ := hFmem p hp
      exact ⟨rowsAfter now ((offsetJobs rps).take k) r, mem_applyJobs_of_mem hr,
        by rw [rowsAfter_id]; exact hrid', by rw [rowsAfter_feed]; exact hrF⟩
    · intro r1 hr1 hF1
      obtain ⟨r, hr, he⟩ := mem_applyJobs_elim hr1
      subst he
      rw [rowsAfter_id]
      refine hcover r hr ?_
      rw [← rowsAfter_feed now ((offsetJobs rps).take k) r]
      exact hF1
  · intro r1 hr1 hF1
    obtain ⟨r, hr, he⟩ := mem_applyJobs_elim hr1
    subst he
    have hrF : r.feed_id = F := by
      rw [← rowsAfter_feed now ((offsetJobs rps).take k) r]
      exact hF1
    rw [offsetJobs_take, rowsAfter_offsetFrom now (rps.take k) 0 r hndTake]
    cases hfk : (List.enumFrom 0 (rps.take k)).find? (fun ip => ip.2.id = r.id) with
    | none => exact Or.inl (hbound r hr hrF)
    | some ip =>
      obtain ⟨i, q⟩ := ip
      right
      refine ⟨(i, q), ?_, ?_, rfl⟩
      · rw [List.enum_eq_enumFrom]
        exact mem_enumFrom_of_take (List.mem_of_find?_eq_some hfk)
      · have : q.id = r.id := by simpa using List.find?_some hfk
        exact this
  
lemma reorder_final_hyps (now : String) (F : Nat) (rps db : List Post)
    (h : ReorderHyps db F rps) :
    ReorderHyps (applyJobs now db (reorderJobs rps)) F rps := by
  obtain ⟨⟨h1, h2, hrid, hrpos, hlt, hFmem, hcover⟩, hbound⟩ := h
  have hoff : OffsetOk db F rps := fun r hr hF => Or.inl (hbound r hr hF)
  have hbound1 : ∀ r1 ∈ applyJobs now db (reorderJobs rps), r1.feed_id = F →
      r1.position < reorderOffset := by
    intro r1 hr1 hF1
    obtain ⟨r, hr, he⟩ := mem_applyJobs_elim hr1
    subst he
    have hrF : r.feed_id = F := by
      rw [← rowsAfter_feed now (reorderJobs rps) r]
      exact hF1
    rw [rowsAfter_reorder now rps hrid r]
    cases hfs : rps.find? (fun p => p.id = r.id) with
    | some p =>
      have hpmem := List.mem_of_find?_eq_some hfs
      exact hlt p hpmem
    | none =>
      exfalso
      obtain ⟨q, hq, hqid⟩ := List.mem_map.mp (hcover r hr hrF)
      have := List.find?_eq_none.mp hfs _ hq
      simp [hqid] at this
  refine ⟨⟨idsNodup_applyJobs h1, ?_, hrid, hrpos, hlt, ?_, ?_⟩, hbound1⟩
  · have hsu := settle_state_unique now F rps db ⟨h1, h2, hrid, hrpos, hlt, hFmem, hcover⟩
      rps.length
    have htl : (settleJobs rps).take rps.length = settleJobs rps := by
      rw [← settleJobs_length rps]
      exact List.take_length _
    rw [htl] at hsu
    exact hsu
  · intro p hp
    obtain ⟨r, hr, hrid', hrF⟩ := hFmem p hp
    exact ⟨rowsAfter now (reorderJobs rps) r, mem_applyJobs_of_mem hr,
      by rw [rowsAfter_id]; exact hrid', by rw [rowsAfter_feed]; exact hrF⟩
  · intro r1 hr1 hF1
    obtain ⟨r, hr, he⟩ := mem_applyJobs_elim hr1
    subst he
    rw [rowsAfter_id]
    refine hcover r hr ?_
    rw [← rowsAfter_feed now (reorderJobs rps) r]
    exact hF1

lemma reorder_absorbs_offset_prefix (now : String) (rps db : List Post) (k : Nat)
    (hrid : (rps.map Post.id).Nodup) :
    applyJobs now (applyJobs now db ((offsetJobs rps).take k)) (reorderJobs rps) =
      applyJobs now db (reorderJobs rps) := by
  have hndTake : ((rps.take k).map Post.id).Nodup :=
    ((List.take_sublist k rps).map Post.id).nodup hrid
  rw [applyJobs_eq_map now (reorderJobs rps), applyJobs_eq_map now ((offsetJobs rps).take k),
    applyJobs_eq_map now (reorderJobs rps), List.map_map]
  apply List.map_congr_left
  intro r _
  rw [Function.comp_apply]
  rw [offsetJobs_take, rowsAfter_offsetFrom now (rps.take k) 0 r hndTake]
  cases hfk : (List.enumFrom 0 (rps.take k)).find? (fun ip => ip.2.id = r.id) with
  | none => rfl
  | some ip =>
    obtain ⟨i, q⟩ := ip
    rw [rowsAfter_reorder now rps hrid, rowsAfter_reorder now rps hrid r]
    rw [show ({ r with position := reorderOffset + (i : Int) } : Post).id = r.id from rfl]
    cases hfs : rps.find? (fun p => p.id = r.id) with
    | some p => rfl
    | none =>
      exfalso
      have hqid : q.id = r.id := by simpa using List.find?_some hfk
      have hqmem := (mem_take_of_mem_enumFrom_take (List.mem_of_find?_eq_some hfk)).1
      have := List.find?_eq_none.mp hfs _ hqmem
      simp [hqid] at this

lemma reorder_applyJobs_idem (now : String) (rps db : List Post)
    (hrid : (rps.map Post.id).Nodup) :
    applyJobs now (applyJobs now db (reorderJobs rps)) (reorderJobs rps) =
      applyJobs now db (reorderJobs rps) := by
  rw [applyJobs_eq_map, applyJobs_eq_map, List.map_map]
  apply List.map_congr_left
  intro r _
  rw [Function.comp_apply]
  rw [rowsAfter_reorder now rps hrid r]
  cases hfs : rps.find? (fun p => p.id = r.id) with
  | none =>
    rw [rowsAfter_reorder now rps hrid r, hfs]
  | some p =>
    rw [rowsAfter_reorder now rps hrid]
    rw [show ({ r with position := p.position, updated_at := now } : Post).id = r.id from rfl]
    rw [hfs]

end UsePosts

/-- C1 (counterexample): the claim as stated is false.  In a wellformed store
where feed 1 holds rows at positions 0 and 999999 — a state satisfying the
uniqueness invariant — swapPosts(1,2) issues a first write that parks row 1 at
the sentinel position 999999, so after that write completes two rows of the
feed hold the same position. -/
theorem c1_counterexample :
    UsePosts.IdsNodup Ex.stBad.db ∧ UsePosts.PosUnique Ex.stBad.db ∧
      (∀ p ∈ Ex.stBad.posts, p ∈ Ex.stBad.db) ∧
      Ex.stBad.posts.find? (fun p => p.id = 1) = some Ex.pA ∧
      Ex.stBad.posts.find? (fun p => p.id = 2) = some Ex.pS ∧
      ∃ db' ∈ UsePosts.traceJobs "t1" Ex.stBad.db
        (UsePosts.swapJobs 1 2 Ex.pA.position Ex.pS.position), ¬ UsePosts.PosUnique db' := by
  decide

/-- C1 (amended): provided every position of the affected feed lies below the
sentinel 999999 (for a swap of two distinct cached posts) respectively below
the offset 10000 with distinct in-range targets covering the feed (for a
reorder), every intermediate table state reached after each individual write of
swapPosts or reorderPosts satisfies the per-feed position-uniqueness
invariant. -/
theorem c1_intermediate_uniqueness_amended :
    (∀ (st : UsePosts.HookState) (postId1 postId2 : Nat)
        (post1 post2 : UsePosts.Post) (now : String),
      UsePosts.IdsNodup st.db → UsePosts.PosUnique st.db →
      (∀ p ∈ st.posts, p ∈ st.db) →
      st.posts.find? (fun p => p.id = postId1) = some post1 →
      st.posts.find? (fun p => p.id = postId2) = some post2 →
      postId1 ≠ postId2 → post2.feed_id = post1.feed_id →
      (∀ r ∈ st.db, r.feed_id = post1.feed_id → r.position < UsePosts.tempPosition) →
      ∀ db' ∈ UsePosts.traceJobs now st.db
          (UsePosts.swapJobs postId1 postId2 post1.position post2.position),
        UsePosts.PosUnique db') ∧
    (∀ (db : List UsePosts.Post) (F : Nat) (rps : List UsePosts.Post) (now : String),
      UsePosts.ReorderHyps db F rps →
      ∀ db' ∈ UsePosts.traceJobs now db (UsePosts.reorderJobs rps),
        UsePosts.PosUnique db') := by
  constructor
  · intro st postId1 postId2 post1 post2 now h1 h2 hmem hf1 hf2 hne hfeed hb
    have hm1 : post1 ∈ st.db := hmem _ (List.mem_of_find?_eq_some hf1)
    have hm2 : post2 ∈ st.db := hmem _ (List.mem_of_find?_eq_some hf2)
    have hid1 : post1.id = postId1 := by simpa using List.find?_some hf1
    have hid2 : post2.id = postId2 := by simpa using List.find?_some hf2
    exact UsePosts.swap_trace_unique now h1 h2 hm1 hm2 hid1 hid2 hne hfeed hb
  · intro db F rps now h
    exact UsePosts.reorder_trace_unique now F rps db h.1 fun r hr hF => Or.inl (h.2 r hr hF)

/-- Witness for the amended C1 on a concrete wellformed state: the table state
after the first swap write (post 1 parked at the sentinel) keeps positions
unique. -/
theorem c1_intermediate_uniqueness_amended_witness :
    UsePosts.PosUnique (UsePosts.applyJob "t1" Ex.stGood.db ⟨1, 999999, true⟩) :=
  c1_intermediate_uniqueness_amended.1 Ex.stGood 1 2 Ex.pA Ex.pB "t1" (by decide) (by decide)
    (by decide) (by decide) (by decide) (by decide) (by decide) (by decide)
    (UsePosts.applyJob "t1" Ex.stGood.db ⟨1, 999999, true⟩) (by decide)

/-- C4: reorderPosts issues exactly two passes of N sequential writes each:
write k (k < N) sets the k-th listed post's position to 10000 + k (the offset
pass), write N + k sets the k-th listed post's true target position (the
settle pass); and under the in-range hypotheses no intermediate state collides
— every state after each write keeps per-feed positions unique. -/
theorem c4_offset_then_settle (rps db : List UsePosts.Post) (F : Nat) (now : String)
    (h : UsePosts.ReorderHyps db F rps) :
    (UsePosts.reorderJobs rps).length = 2 * rps.length ∧
    (∀ k, (hk : k < rps.length) →
      (UsePosts.reorderJobs rps)[k]? =
        some ⟨rps[k].id, UsePosts.reorderOffset + (k : Int), false⟩ ∧
      (UsePosts.reorderJobs rps)[rps.length + k]? =
        some ⟨rps[k].id, rps[k].position, true⟩) ∧
    (∀ db' ∈ UsePosts.traceJobs now db (UsePosts.reorderJobs rps),
      UsePosts.PosUnique db') := by
  refine ⟨?_, ?_, ?_⟩
  · simp [UsePosts.reorderJobs, UsePosts.offsetJobs_length, UsePosts.settleJobs_length]
    omega
  · intro k hk
    constructor
    · rw [UsePosts.reorderJobs, List.getElem?_append,
        if_pos (by rw [UsePosts.offsetJobs_length]; exact hk)]
      rw [UsePosts.offsetJobs_eq, List.getElem?_map, List.getElem?_enumFrom,
        List.getElem?_eq_getElem hk]
      simp
    · rw [UsePosts.reorderJobs, List.getElem?_append,
        if_neg (by rw [UsePosts.offsetJobs_length]; omega)]
      rw [UsePosts.offsetJobs_length]
      rw [show rps.length + k - rps.length = k from by omega]
      rw [UsePosts.settleJobs, List.getElem?_map, List.getElem?_eq_getElem hk]
      rfl
  · exact UsePosts.reorder_trace_unique now F rps db h.1 fun r hr hF => Or.inl (h.2 r hr hF)

/-- Witness for C4 at a concrete two-element reorder: the sequence has four
writes and the state after the first offset write keeps positions unique. -/
theorem c4_offset_then_settle_witness :
    (UsePosts.reorderJobs Ex.rTargets).length = 2 * Ex.rTargets.length ∧
      UsePosts.PosUnique (UsePosts.applyJob "t1" Ex.stGood.db ⟨2, 10000, false⟩) :=
  ⟨(c4_offset_then_settle Ex.rTargets Ex.stGood.db 1 "t1" (by decide)).1,
    (c4_offset_then_settle Ex.rTargets Ex.stGood.db 1 "t1" (by decide)).2.2
      (UsePosts.applyJob "t1" Ex.stGood.db ⟨2, 10000, false⟩) (by decide)⟩

/-- C6: under the in-range reorder hypotheses, a successful reorderPosts call
produces a definite final table and sets the cache to the argument list;
calling it again with the same target list succeeds and changes neither the
table nor the cache; and a repair re-invocation from any partially offset
intermediate state (the table left by interrupting the offset pass after k
writes) converges to the same final table, cache and success result. -/
theorem c6_reorder_idempotent (fid : Option Nat) (cache db rps : List UsePosts.Post)
    (F : Nat) (now : String) (h : UsePosts.ReorderHyps db F rps) :
    UsePosts.reorderPosts ⟨fid, db, cache⟩ rps now none =
      (⟨fid, UsePosts.applyJobs now db (UsePosts.reorderJobs rps), rps⟩, none) ∧
    UsePosts.reorderPosts ⟨fid, UsePosts.applyJobs now db (UsePosts.reorderJobs rps), rps⟩
        rps now none =
      (⟨fid, UsePosts.applyJobs now db (UsePosts.reorderJobs rps), rps⟩, none) ∧
    (∀ (k : Nat) (cache' : List UsePosts.Post),
      UsePosts.reorderPosts
          ⟨fid, UsePosts.applyJobs now db ((UsePosts.offsetJobs rps).take k), cache'⟩
          rps now none =
        (⟨fid, UsePosts.applyJobs now db (UsePosts.reorderJobs rps), rps⟩, none)) := by
  have hoff : UsePosts.OffsetOk db F rps := fun r hr hF => Or.inl (h.2 r hr hF)
  have hrid : (rps.map UsePosts.Post.id).Nodup := h.1.2.2.1
  refine ⟨?_, ?_, ?_⟩
  · have hok := UsePosts.reorder_runJobs_ok now F rps db h.1 hoff
    simp [UsePosts.reorderPosts, hok]
  · have h1 := UsePosts.reorder_final_hyps now F rps db h
    have hoff1 : UsePosts.OffsetOk (UsePosts.applyJobs now db (UsePosts.reorderJobs rps)) F rps :=
      fun r hr hF => Or.inl (h1.2 r hr hF)
    have hok1 := UsePosts.reorder_runJobs_ok now F rps
      (UsePosts.applyJobs now db (UsePosts.reorderJobs rps)) h1.1 hoff1
    simp [UsePosts.reorderPosts, hok1, UsePosts.reorder_applyJobs_idem now rps db hrid]
  · intro k cache'
    obtain ⟨hcorek, hoffk⟩ := UsePosts.reorder_partial_hyps now F rps db k h
    have hokk := UsePosts.reorder_runJobs_ok now F rps
      (UsePosts.applyJobs now db ((UsePosts.offsetJobs rps).take k)) hcorek hoffk
    simp [UsePosts.reorderPosts, hokk,
      UsePosts.reorder_absorbs_offset_prefix now rps db k hrid]

/-- Witness for C6 at a concrete state and target list: the first call, the
repeated call and a repair call from the half-offset state all yield the same
final state. -/
theorem c6_reorder_idempotent_witness :
    UsePosts.reorderPosts ⟨some 1, Ex.stGood.db, Ex.stGood.posts⟩ Ex.rTargets "t1" none =
      (⟨some 1, UsePosts.applyJobs "t1" Ex.stGood.db (UsePosts.reorderJobs Ex.rTargets),
        Ex.rTargets⟩, none) ∧
    UsePosts.reorderPosts
        ⟨some 1, UsePosts.applyJobs "t1" Ex.stGood.db
          ((UsePosts.offsetJobs Ex.rTargets).take 1), []⟩ Ex.rTargets "t1" none =
      (⟨some 1, UsePosts.applyJobs "t1" Ex.stGood.db (UsePosts.reorderJobs Ex.rTargets),
        Ex.rTargets⟩, none) :=
  ⟨(c6_reorder_idempotent (some 1) Ex.stGood.posts Ex.stGood.db Ex.rTargets 1 "t1"
      (by decide)).1,
   (c6_reorder_idempotent (some 1) Ex.stGood.posts Ex.stGood.db Ex.rTargets 1 "t1"
      (by decide)).2.2 1 []⟩

/-- C7: if a write of a swapPosts or reorderPosts reconciliation fails, the
call returns an error (never swallows it), the local cache is left unchanged,
and the table equals the starting table with only a prefix of the write
sequence applied — later writes are not issued and completed ones are not
rolled back; moreover a failure injected at any write index below the sequence
length does surface as an error. -/
theorem c7_failure_propagation :
    (∀ (st : UsePosts.HookState) (postId1 postId2 : Nat) (now : String)
        (failAt : Option Nat) (post1 post2 : UsePosts.Post),
      st.posts.find? (fun p => p.id = postId1) = some post1 →
      st.posts.find? (fun p => p.id = postId2) = some post2 →
      (((UsePosts.swapPosts st postId1 postId2 now failAt).2 ≠ none →
        (UsePosts.swapPosts st postId1 postId2 now failAt).1.posts = st.posts ∧
        ∃ j, j ≤ 3 ∧ (UsePosts.swapPosts st postId1 postId2 now failAt).1.db =
          UsePosts.applyJobs now st.db
            ((UsePosts.swapJobs postId1 postId2 post1.position post2.position).take j)) ∧
       ∀ m, failAt = some m → m < 3 →
         (UsePosts.swapPosts st postId1 postId2 now failAt).2 ≠ none)) ∧
    (∀ (st : UsePosts.HookState) (rps : List UsePosts.Post) (now : String)
        (failAt : Option Nat),
      ((UsePosts.reorderPosts st rps now failAt).2 ≠ none →
        (UsePosts.reorderPosts st rps now failAt).1.posts = st.posts ∧
        ∃ j, j ≤ (UsePosts.reorderJobs rps).length ∧
          (UsePosts.reorderPosts st rps now failAt).1.db =
            UsePosts.applyJobs now st.db ((UsePosts.reorderJobs rps).take j)) ∧
      ∀ m, failAt = some m → m < (UsePosts.reorderJobs rps).length →
        (UsePosts.reorderPosts st rps now failAt).2 ≠ none) := by
  constructor
  · intro st postId1 postId2 now failAt post1 post2 hf1 hf2
    obtain ⟨j, hj1, hj2, hj3⟩ := UsePosts.runJobs_prefix now failAt
      (UsePosts.swapJobs postId1 postId2 post1.position post2.position) st.db 0
    simp only [UsePosts.swapPosts, hf1, hf2]
    cases hrun : (UsePosts.runJobs now failAt st.db
        (UsePosts.swapJobs postId1 postId2 post1.position post2.position) 0).2 with
    | some e =>
      constructor
      · intro _
        exact ⟨rfl, j, by simpa using hj1, hj2⟩
      · intro m hm1 hm2
        simp
    | none =>
      constructor
      · intro hcontra
        simp at hcontra
      · intro m hm1 hm2
        exfalso
        subst hm1
        exact UsePosts.runJobs_fails now m _ st.db 0 (Nat.zero_le m) (by simpa using hm2) hrun
  · intro st rps now failAt
    obtain ⟨j, hj1, hj2, hj3⟩ := UsePosts.runJobs_prefix now failAt
      (UsePosts.reorderJobs rps) st.db 0
    simp only [UsePosts.reorderPosts]
    cases hrun : (UsePosts.runJobs now failAt st.db (UsePosts.reorderJobs rps) 0).2 with
    | some e =>
      constructor
      · intro _
        exact ⟨rfl, j, hj1, hj2⟩
      · intro m hm1 hm2
        simp
    | none =>
      constructor
      · intro hcontra
        simp at hcontra
      · intro m hm1 hm2
        exfalso
        subst hm1
        exact UsePosts.runJobs_fails now m _ st.db 0 (Nat.zero_le m) (by omega) hrun

/-- Witness for C7: a failure injected at the second write of a concrete swap
surfaces as an error to the caller. -/
theorem c7_failure_propagation_witness :
    (UsePosts.swapPosts Ex.stGood 1 2 "t1" (some 1)).2 ≠ none :=
  (c7_failure_propagation.1 Ex.stGood 1 2 "t1" (some 1) Ex.pA Ex.pB
    (by decide) (by decide)).2 1 rfl (by decide)

namespace UsePosts

lemma mem_sortByPosition {l : List Post} {x : Post} : x ∈ sortByPosition l ↔ x ∈ l :=
  (List.perm_insertionSort _ l).mem_iff

lemma sortByPosition_perm (l : List Post) : (sortByPosition l).Perm l :=
  List.perm_insertionSort _ l

lemma find?_id_unique {l : List Post} {i : Nat} {x : Post} (hx : x ∈ l) (hxi : x.id = i)
    (huniq : ∀ y ∈ l, y.id = i → y = x) : l.find? (fun p => p.id = i) = some x := by
  induction l with
  | nil => cases hx
  | cons a l ih =>
    rw [List.find?_cons]
    by_cases ha : a.id = i
    · have hax : a = x := huniq a (by simp) ha
      subst hax
      simp [ha]
    · have hx' : x ∈ l := by
        rcases List.mem_cons.mp hx with h | h
        · exact absurd (h ▸ hxi) ha
        · exact h
      have hd : (decide (a.id = i)) = false := by simp [ha]
      rw [hd]
      exact ih hx' fun y hy hyi => huniq y (List.mem_cons_of_mem a hy) hyi

lemma rowsAfter_swapJobs_id1 (now : String) (postId1 postId2 : Nat) (pos1 pos2 : Int)
    (r : Post) (h : r.id = postId1) (hne : postId1 ≠ postId2) :
    rowsAfter now (swapJobs postId1 postId2 pos1 pos2) r =
      { r with position := pos2, updated_at := now } := by
  simp [swapJobs, rowsAfter, jobRow, h, hne]

lemma rowsAfter_swapJobs_id2 (now : String) (postId1 postId2 : Nat) (pos1 pos2 : Int)
    (r : Post) (h : r.id = postId2) (hne : postId1 ≠ postId2) :
    rowsAfter now (swapJobs postId1 postId2 pos1 pos2) r =
      { r with position := pos1, updated_at := now } := by
  simp [swapJobs, rowsAfter, jobRow, h, Ne.symm hne]

lemma rowsAfter_swapJobs_other (now : String) (postId1 postId2 : Nat) (pos1 pos2 : Int)
    (r : Post) (h1 : r.id ≠ postId1) (h2 : r.id ≠ postId2) :
    rowsAfter now (swapJobs postId1 postId2 pos1 pos2) r = r := by
  simp [swapJobs, rowsAfter, jobRow, h1, h2]

lemma swapPosts_success (st : HookState) (postId1 postId2 : Nat) (now : String)
    (failAt : Option Nat) (post1 post2 : Post)
    (hf1 : st.posts.find? (fun p => p.id = postId1) = some post1)
    (hf2 : st.posts.find? (fun p => p.id = postId2) = some post2)
    (hsucc : (swapPosts st postId1 postId2 now failAt).2 = none) :
    swapPosts st postId1 postId2 now failAt =
      ({ st with
          db := applyJobs now st.db (swapJobs postId1 postId2 post1.position post2.position),
          posts := sortByPosition (st.posts.map fun p =>
            if p.id = postId1 then { p with position := post2.position }
            else if p.id = postId2 then { p with position := post1.position }
            else p) }, none) := by
  obtain ⟨j, hj1, hj2, hj3⟩ := runJobs_prefix now failAt
    (swapJobs postId1 postId2 post1.position post2.position) st.db 0
  simp only [swapPosts, hf1, hf2] at hsucc ⊢
  cases hrun : (runJobs now failAt st.db
      (swapJobs postId1 postId2 post1.position post2.position) 0).2 with
  | some e =>
    rw [hrun] at hsucc
    simp at hsucc
  | none =>
    have hj := hj3 hrun
    rw [hj, List.take_length] at hj2
    rw [hj2]

lemma double_swap_cache_perm (l : List Post) (postId1 postId2 : Nat)
    (post1 post2 : Post) (hm1 : post1 ∈ l) (hm2 : post2 ∈ l)
    (hnodup : IdsNodup l) (hid1 : post1.id = postId1) (hid2 : post2.id = postId2) :
    (sortByPosition ((sortByPosition (l.map fun p =>
        if p.id = postId1 then { p with position := post2.position }
        else if p.id = postId2 then { p with position := post1.position } else p)).map fun p =>
        if p.id = postId1 then { p with position := post1.position }
        else if p.id = postId2 then { p with position := post2.position } else p)).Perm l := by
  refine (sortByPosition_perm _).trans ?_
  refine ((sortByPosition_perm _).map _).trans ?_
  rw [List.map_map]
  have hpoint : ∀ p ∈ l,
      ((fun p => if p.id = postId1 then { p with position := post1.position }
          else if p.id = postId2 then { p with position := post2.position } else p) ∘
        (fun p => if p.id = postId1 then { p with position := post2.position }
          else if p.id = postId2 then { p with position := post1.position } else p)) p = p := by
    intro p hp
    simp only [Function.comp_apply]
    by_cases h1 : p.id = postId1
    · have hpe : p = post1 := id_inj hnodup hp hm1 (h1.trans hid1.symm)
      subst hpe
      rw [if_pos h1,
        if_pos (show ({ p with position := post2.position } : Post).id = postId1 from h1)]
    · by_cases h2 : p.id = postId2
      · have hpe : p = post2 := id_inj hnodup hp hm2 (h2.trans hid2.symm)
        subst hpe
        rw [if_neg h1, if_pos h2,
          if_neg (show ¬({ p with position := post1.position } : Post).id = postId1 from h1),
          if_pos (show ({ p with position := post1.position } : Post).id = postId2 from h2)]
      · rw [if_neg h1, if_neg h2, if_neg h1, if_neg h2]
  rw [List.map_congr_left hpoint]
  simp

end UsePosts

/-- C3 (counterexample): the claim as stated is false for the snapshot-model
swap.  Swapping two cells that carry notes moves image, imagePath, caption and
scheduledTime but silently discards both notes, so the moved payload is not
unchanged. -/
theorem c3_counterexample :
    Ex.b1.notes = some "note1" ∧ Ex.b2.notes = some "note2" ∧
      SnapshotApp.handleSwapPosts [Ex.b1, Ex.b2] 1 2 =
        [{ id := 1, image := Ex.b2.image, imagePath := Ex.b2.imagePath,
           caption := Ex.b2.caption, scheduledTime := Ex.b2.scheduledTime, notes := none },
         { id := 2, image := Ex.b1.image, imagePath := Ex.b1.imagePath,
           caption := Ex.b1.caption, scheduledTime := Ex.b1.scheduledTime, notes := none }] := by
  decide

/-- C3 (amended): in the stable-id hook a successful swapPosts leaves both
records' id and payload untouched — the final cache holds each post with only
its position replaced by the other's prior position, the final table holds
each row with only position exchanged and updated_at refreshed — and every
other cached item and table row is carried over unchanged; in the snapshot
model handleSwapPosts exchanges image, imagePath, caption and scheduledTime
between the two cells but clears both cells' notes, leaving other cells
untouched. -/
theorem c3_swap_identity_amended :
    (∀ (st : UsePosts.HookState) (postId1 postId2 : Nat) (now : String)
        (failAt : Option Nat) (post1 post2 : UsePosts.Post),
      st.posts.find? (fun p => p.id = postId1) = some post1 →
      st.posts.find? (fun p => p.id = postId2) = some post2 →
      postId1 ≠ postId2 → (∀ p ∈ st.posts, p ∈ st.db) →
      (UsePosts.swapPosts st postId1 postId2 now failAt).2 = none →
      ({ post1 with position := post2.position } ∈
          (UsePosts.swapPosts st postId1 postId2 now failAt).1.posts ∧
        { post2 with position := post1.position } ∈
          (UsePosts.swapPosts st postId1 postId2 now failAt).1.posts ∧
        (∀ q ∈ st.posts, q.id ≠ postId1 → q.id ≠ postId2 →
          q ∈ (UsePosts.swapPosts st postId1 postId2 now failAt).1.posts) ∧
        { post1 with position := post2.position, updated_at := now } ∈
          (UsePosts.swapPosts st postId1 postId2 now failAt).1.db ∧
        { post2 with position := post1.position, updated_at := now } ∈
          (UsePosts.swapPosts st postId1 postId2 now failAt).1.db ∧
        (∀ r ∈ st.db, r.id ≠ postId1 → r.id ≠ postId2 →
          r ∈ (UsePosts.swapPosts st postId1 postId2 now failAt).1.db))) ∧
    (∀ (prev : List SnapshotApp.Post) (dragId dropId : Nat)
        (dragPost dropPost : SnapshotApp.Post),
      prev.find? (fun p => p.id = dragId) = some dragPost →
      prev.find? (fun p => p.id = dropId) = some dropPost →
      ∀ q ∈ SnapshotApp.handleSwapPosts prev dragId dropId,
        (q.id ≠ dragId → q.id ≠ dropId → q ∈ prev) ∧
        (q.id = dragId →
          q = ⟨dragId, dropPost.image, dropPost.imagePath, dropPost.caption,
                dropPost.scheduledTime, none⟩) ∧
        (q.id = dropId → q.id ≠ dragId →
          q = ⟨dropId, dragPost.image, dragPost.imagePath, dragPost.caption,
                dragPost.scheduledTime, none⟩)) := by
  constructor
  · intro st postId1 postId2 now failAt post1 post2 hf1 hf2 hne hmem hsucc
    have hid1 : post1.id = postId1 := by simpa using List.find?_some hf1
    have hid2 : post2.id = postId2 := by simpa using List.find?_some hf2
    have hm1p : post1 ∈ st.posts := List.mem_of_find?_eq_some hf1
    have hm2p : post2 ∈ st.posts := List.mem_of_find?_eq_some hf2
    have he := UsePosts.swapPosts_success st postId1 postId2 now failAt post1 post2 hf1 hf2 hsucc
    rw [he]
    refine ⟨?_, ?_, ?_, ?_, ?_, ?_⟩
    · exact UsePosts.mem_sortByPosition.mpr
        (List.mem_map.mpr ⟨post1, hm1p, by simp [hid1]⟩)
    · exact UsePosts.mem_sortByPosition.mpr
        (List.mem_map.mpr ⟨post2, hm2p, by simp [hid2, Ne.symm hne]⟩)
    · intro q hq hq1 hq2
      exact UsePosts.mem_sortByPosition.mpr
        (List.mem_map.mpr ⟨q, hq, by simp [hq1, hq2]⟩)
    · have hmm := @UsePosts.mem_applyJobs_of_mem now
        (UsePosts.swapJobs postId1 postId2 post1.position post2.position) st.db post1
        (hmem post1 hm1p)
      rw [UsePosts.rowsAfter_swapJobs_id1 now postId1 postId2 post1.position post2.position
        post1 hid1 hne] at hmm
      exact hmm
    · have hmm := @UsePosts.mem_applyJobs_of_mem now
        (UsePosts.swapJobs postId1 postId2 post1.position post2.position) st.db post2
        (hmem post2 hm2p)
      rw [UsePosts.rowsAfter_swapJobs_id2 now postId1 postId2 post1.position post2.position
        post2 hid2 hne] at hmm
      exact hmm
    · intro r hr hr1 hr2
      have hmm := @UsePosts.mem_applyJobs_of_mem now
        (UsePosts.swapJobs postId1 postId2 post1.position post2.position) st.db r hr
      rw [UsePosts.rowsAfter_swapJobs_other now postId1 postId2 post1.position post2.position
        r hr1 hr2] at hmm
      exact hmm
  · intro prev dragId dropId dragPost dropPost hfd hfp q hq
    simp only [SnapshotApp.handleSwapPosts, hfd, hfp] at hq
    obtain ⟨p, hp, hpq⟩ := List.mem_map.mp hq
    by_cases h1 : p.id = dragId
    · rw [if_pos h1] at hpq
      subst hpq
      exact ⟨fun hq1 _ => absurd rfl hq1, fun _ => rfl, fun _ hqnd => absurd rfl hqnd⟩
    · rw [if_neg h1] at hpq
      by_cases h2 : p.id = dropId
      · rw [if_pos h2] at hpq
        subst hpq
        refine ⟨fun _ hq2 => absurd rfl hq2, fun hq1 => ?_, fun _ _ => rfl⟩
        have hdd : dropId = dragId := hq1
        rw [hdd] at hfp
        have hpp : dragPost = dropPost := by
          rw [hfd] at hfp
          exact Option.some.inj hfp
        rw [hdd, hpp]
      · rw [if_neg h2] at hpq
        subst hpq
        exact ⟨fun _ _ => hp, fun hq1 => absurd hq1 h1, fun hq2 _ => absurd hq2 h2⟩

/-- Witness for the amended C3: in a concrete successful swap, the cache holds
post 1 with post 2's prior position and otherwise identical fields. -/
theorem c3_swap_identity_amended_witness :
    { Ex.pA with position := Ex.pB.position } ∈
      (UsePosts.swapPosts Ex.stGood 1 2 "t1" none).1.posts :=
  (c3_swap_identity_amended.1 Ex.stGood 1 2 "t1" none Ex.pA Ex.pB (by decide) (by decide)
    (by decide) (by decide) (by decide)).1

/-- C5 (counterexample): in the snapshot model, swap(A,B) followed immediately
by swap(A,B) does not leave payloads unchanged — both cells come back with
their notes erased, so the double swap differs from the original grid. -/
theorem c5_counterexample :
    SnapshotApp.handleSwapPosts (SnapshotApp.handleSwapPosts [Ex.b1, Ex.b2] 1 2) 1 2 =
        [{ Ex.b1 with notes := none }, { Ex.b2 with notes := none }] ∧
      SnapshotApp.handleSwapPosts (SnapshotApp.handleSwapPosts [Ex.b1, Ex.b2] 1 2) 1 2 ≠
        [Ex.b1, Ex.b2] := by
  decide

/-- C5 (amended): in the stable-id hook, performing swapPosts(A,B) and then
immediately swapPosts(A,B) again — with both calls succeeding — leaves the
cache a permutation of the original cache (every record, including both
swapped posts, carries exactly its original id, payload and position), and the
table holds both swapped rows with original positions and payloads with only
updated_at refreshed, while every other row is untouched. -/
theorem c5_double_swap_amended
    (st : UsePosts.HookState) (postId1 postId2 : Nat) (now1 now2 : String)
    (failAt1 failAt2 : Option Nat) (post1 post2 : UsePosts.Post)
    (hf1 : st.posts.find? (fun p => p.id = postId1) = some post1)
    (hf2 : st.posts.find? (fun p => p.id = postId2) = some post2)
    (hne : postId1 ≠ postId2)
    (hnodup : UsePosts.IdsNodup st.posts)
    (hmem : ∀ p ∈ st.posts, p ∈ st.db)
    (hsucc1 : (UsePosts.swapPosts st postId1 postId2 now1 failAt1).2 = none)
    (hsucc2 : (UsePosts.swapPosts (UsePosts.swapPosts st postId1 postId2 now1 failAt1).1
        postId1 postId2 now2 failAt2).2 = none) :
    ((UsePosts.swapPosts (UsePosts.swapPosts st postId1 postId2 now1 failAt1).1
        postId1 postId2 now2 failAt2).1.posts.Perm st.posts ∧
      { post1 with updated_at := now2 } ∈
        (UsePosts.swapPosts (UsePosts.swapPosts st postId1 postId2 now1 failAt1).1
          postId1 postId2 now2 failAt2).1.db ∧
      { post2 with updated_at := now2 } ∈
        (UsePosts.swapPosts (UsePosts.swapPosts st postId1 postId2 now1 failAt1).1
          postId1 postId2 now2 failAt2).1.db ∧
      ∀ r ∈ st.db, r.id ≠ postId1 → r.id ≠ postId2 →
        r ∈ (UsePosts.swapPosts (UsePosts.swapPosts st postId1 postId2 now1 failAt1).1
          postId1 postId2 now2 failAt2).1.db) := by
  have hid1 : post1.id = postId1 := by simpa using List.find?_some hf1
  have hid2 : post2.id = postId2 := by simpa using List.find?_some hf2
  have hm1 : post1 ∈ st.posts := List.mem_of_find?_eq_some hf1
  have hm2 : post2 ∈ st.posts := List.mem_of_find?_eq_some hf2
  have he1 := UsePosts.swapPosts_success st postId1 postId2 now1 failAt1 post1 post2 hf1 hf2 hsucc1
  have hst1 : (UsePosts.swapPosts st postId1 postId2 now1 failAt1).1 =
      { st with
        db := UsePosts.applyJobs now1 st.db
          (UsePosts.swapJobs postId1 postId2 post1.position post2.position),
        posts := UsePosts.sortByPosition (st.posts.map fun p =>
          if p.id = postId1 then { p with position := post2.position }
          else if p.id = postId2 then { p with position := post1.position }
          else p) } := by
    rw [he1]
  have hmem1 : ({ post1 with position := post2.position } : UsePosts.Post) ∈
      UsePosts.sortByPosition (st.posts.map fun p =>
        if p.id = postId1 then { p with position := post2.position }
        else if p.id = postId2 then { p with position := post1.position }
        else p) :=
    UsePosts.mem_sortByPosition.mpr (List.mem_map.mpr ⟨post1, hm1, by simp [hid1]⟩)
  have hmem2 : ({ post2 with position := post1.position } : UsePosts.Post) ∈
      UsePosts.sortByPosition (st.posts.map fun p =>
        if p.id = postId1 then { p with position := post2.position }
        else if p.id = postId2 then { p with position := post1.position }
        else p) :=
    UsePosts.mem_sortByPosition.mpr (List.mem_map.mpr ⟨post2, hm2, by simp [hid2, Ne.symm hne]⟩)
  have hfid : ∀ p : UsePosts.Post,
      ((if p.id = postId1 then { p with position := post2.position }
        else if p.id = postId2 then { p with position := post1.position }
        else p) : UsePosts.Post).id = p.id := by
    intro p
    by_cases h1 : p.id = postId1
    · rw [if_pos h1]
    · by_cases h2 : p.id = postId2
      · rw [if_neg h1, if_pos h2]
      · rw [if_neg h1, if_neg h2]
  have huniq1 : ∀ y ∈ UsePosts.sortByPosition (st.posts.map fun p =>
      if p.id = postId1 then { p with position := post2.position }
      else if p.id = postId2 then { p with position := post1.position }
      else p), y.id = postId1 → y = { post1 with position := post2.position } := by
    intro y hy hyid
    obtain ⟨p, hp, hpy⟩ := List.mem_map.mp (UsePosts.mem_sortByPosition.mp hy)
    have hpid : p.id = postId1 := by
      rw [← hyid, ← hpy]
      exact (hfid p).symm
    have hpe : p = post1 := UsePosts.id_inj hnodup hp hm1 (hpid.trans hid1.symm)
    subst hpe
    rw [← hpy]
    simp [hpid]
  have huniq2 : ∀ y ∈ UsePosts.sortByPosition (st.posts.map fun p =>
      if p.id = postId1 then { p with position := post2.position }
      else if p.id = postId2 then { p with position := post1.position }
      else p), y.id = postId2 → y = { post2 with position := post1.position } := by
    intro y hy hyid
    obtain ⟨p, hp, hpy⟩ := List.mem_map.mp (UsePosts.mem_sortByPosition.mp hy)
    have hpid : p.id = postId2 := by
      rw [← hyid, ← hpy]
      exact (hfid p).symm
    have hpe : p = post2 := UsePosts.id_inj hnodup hp hm2 (hpid.trans hid2.symm)
    subst hpe
    rw [← hpy]
    simp [hpid, Ne.symm hne]
  have hf1' : ((UsePosts.swapPosts st postId1 postId2 now1 failAt1).1).posts.find?
      (fun p => p.id = postId1) = some ({ post1 with position := post2.position }) := by
    rw [hst1]
    exact UsePosts.find?_id_unique hmem1 hid1 huniq1
  have hf2' : ((UsePosts.swapPosts st postId1 postId2 now1 failAt1).1).posts.find?
      (fun p => p.id = postId2) = some ({ post2 with position := post1.position }) := by
    rw [hst1]
    exact UsePosts.find?_id_unique hmem2 hid2 huniq2
  have he2 := UsePosts.swapPosts_success (UsePosts.swapPosts st postId1 postId2 now1 failAt1).1
    postId1 postId2 now2 failAt2 ({ post1 with position := post2.position })
    ({ post2 with position := post1.position }) hf1' hf2' hsucc2
  rw [he2, hst1]
  refine ⟨?_, ?_, ?_, ?_⟩
  · exact UsePosts.double_swap_cache_perm st.posts postId1 postId2 post1 post2 hm1 hm2
      hnodup hid1 hid2
  · have a1 := @UsePosts.mem_applyJobs_of_mem now1
      (UsePosts.swapJobs postId1 postId2 post1.position post2.position) st.db post1
      (hmem post1 hm1)
    rw [UsePosts.rowsAfter_swapJobs_id1 now1 postId1 postId2 post1.position post2.position
      post1 hid1 hne] at a1
    have a2 := @UsePosts.mem_applyJobs_of_mem now2
      (UsePosts.swapJobs postId1 postId2 post2.position post1.position)
      (UsePosts.applyJobs now1 st.db
        (UsePosts.swapJobs postId1 postId2 post1.position post2.position))
      ({ post1 with position := post2.position, updated_at := now1 }) a1
    rw [UsePosts.rowsAfter_swapJobs_id1 now2 postId1 postId2 post2.position post1.position
      ({ post1 with position := post2.position, updated_at := now1 }) hid1 hne] at a2
    exact a2
  · have a1 := @UsePosts.mem_applyJobs_of_mem now1
      (UsePosts.swapJobs postId1 postId2 post1.position post2.position) st.db post2
      (hmem post2 hm2)
    rw [UsePosts.rowsAfter_swapJobs_id2 now1 postId1 postId2 post1.position post2.position
      post2 hid2 hne] at a1
    have a2 := @UsePosts.mem_applyJobs_of_mem now2
      (UsePosts.swapJobs postId1 postId2 post2.position post1.position)
      (UsePosts.applyJobs now1 st.db
        (UsePosts.swapJobs postId1 postId2 post1.position post2.position))
      ({ post2 with position := post1.position, updated_at := now1 }) a1
    rw [UsePosts.rowsAfter_swapJobs_id2 now2 postId1 postId2 post2.position post1.position
      ({ post2 with position := post1.position, updated_at := now1 }) hid2 hne] at a2
    exact a2
  · intro r hr hr1 hr2
    have a1 := @UsePosts.mem_applyJobs_of_mem now1
      (UsePosts.swapJobs postId1 postId2 post1.position post2.position) st.db r hr
    rw [UsePosts.rowsAfter_swapJobs_other now1 postId1 postId2 post1.position post2.position
      r hr1 hr2] at a1
    have a2 := @UsePosts.mem_applyJobs_of_mem now2
      (UsePosts.swapJobs postId1 postId2 post2.position post1.position)
      (UsePosts.applyJobs now1 st.db
        (UsePosts.swapJobs postId1 postId2 post1.position post2.position)) r a1
    rw [UsePosts.rowsAfter_swapJobs_other now2 postId1 postId2 post2.position post1.position
      r hr1 hr2] at a2
    exact a2

/-- Witness for the amended C5: a concrete double swap leaves the cache a
permutation of (in fact equal up to order to) the original cache. -/
theorem c5_double_swap_amended_witness :
    (UsePosts.swapPosts (UsePosts.swapPosts Ex.stGood 1 2 "t1" none).1
        1 2 "t2" none).1.posts.Perm Ex.stGood.posts :=
  (c5_double_swap_amended Ex.stGood 1 2 "t1" "t2" none none Ex.pA Ex.pB (by decide) (by decide)
    (by decide) (by decide) (by decide) (by decide) (by decide)).1

/-- C8: for any nonempty persisted set with positive identities, the snapshot
loader's reconstruction has length exactly max(maxId, 9) — hence at least the
minimum grid size 9 — contains no duplicate identities, and synthesizes an
empty placeholder cell at every display index not covered by a persisted
item. -/
theorem c8_snapshot_density (saved : List SnapshotApp.Post)
    (hne : saved ≠ []) (hpos : ∀ p ∈ saved, 0 < p.id) :
    (SnapshotApp.loadPostsReconstruct saved).length = max (SnapshotApp.maxId saved) 9 ∧
      9 ≤ (SnapshotApp.loadPostsReconstruct saved).length ∧
      ((SnapshotApp.loadPostsReconstruct saved).map SnapshotApp.Post.id).Nodup ∧
      ∀ k < max (SnapshotApp.maxId saved) 9, (∀ p ∈ saved, p.id ≠ k + 1) →
        (SnapshotApp.loadPostsReconstruct saved)[k]? =
          some (SnapshotApp.emptyCell (k + 1)) := by
  have hlen : (SnapshotApp.loadPostsReconstruct saved).length =
      max (SnapshotApp.maxId saved) 9 := by
    simp [SnapshotApp.loadPostsReconstruct]
  refine ⟨hlen, ?_, ?_, ?_⟩
  · rw [hlen]
    exact le_max_right _ _
  · simp only [SnapshotApp.loadPostsReconstruct]
    rw [List.map_map]
    have hpt : ∀ k ∈ List.range (max (SnapshotApp.maxId saved) 9),
        (SnapshotApp.Post.id ∘ fun k =>
          match SnapshotApp.postsMapGet saved (k + 1) with
          | some savedPost =>
            { id := k + 1, image := savedPost.image, imagePath := savedPost.imagePath,
              caption := savedPost.caption, scheduledTime := savedPost.scheduledTime,
              notes := savedPost.notes }
          | none => SnapshotApp.emptyCell (k + 1)) k = k + 1 := by
      intro k _
      simp only [Function.comp_apply]
      cases SnapshotApp.postsMapGet saved (k + 1) <;> rfl
    rw [List.map_congr_left hpt]
    exact List.Nodup.map (fun a b h => Nat.succ.inj h) (List.nodup_range _)
  · intro k hk hcov
    have hnone : SnapshotApp.postsMapGet saved (k + 1) = none := by
      unfold SnapshotApp.postsMapGet
      rw [List.find?_eq_none]
      intro x hx
      have hxs : x ∈ saved :=
        (List.perm_insertionSort _ saved).mem_iff.mp (List.mem_reverse.mp hx)
      simp [hcov x hxs]
    simp only [SnapshotApp.loadPostsReconstruct]
    rw [List.getElem?_map, List.getElem?_range hk]
    simp [hnone]

/-- Witness for C8 on a sparse concrete set (ids 5 and 2): the reconstruction
reaches the minimum grid size. -/
theorem c8_snapshot_density_witness :
    9 ≤ (SnapshotApp.loadPostsReconstruct Ex.savedSparse).length :=
  (c8_snapshot_density Ex.savedSparse (by decide) (by decide)).2.1

/-- C9 (counterexample): the feed editor page's swap handler does not satisfy
the claim — asked to swap with an id that is not in the cache, it returns the
state unchanged with no error at all: a silent no-op. -/
theorem c9_counterexample :
    (∀ p ∈ Ex.stGood.posts, p.id ≠ 99) ∧
      FeedEditorPage.handleSwapPosts Ex.stGood 1 99 "t1" none = (Ex.stGood, none) := by
  decide

/-- C9 (amended): when either referenced post is missing from the local cache,
the hook's swapPosts fails with a not-found error and performs no writes (the
state, table included, is returned unchanged); the feed editor page's
handleSwapPosts, by contrast, performs no writes but also reports no error —
it silently does nothing. -/
theorem c9_not_found_amended :
    (∀ (st : UsePosts.HookState) (postId1 postId2 : Nat) (now : String) (failAt : Option Nat),
      (st.posts.find? (fun p => p.id = postId1) = none ∨
        st.posts.find? (fun p => p.id = postId2) = none) →
      UsePosts.swapPosts st postId1 postId2 now failAt = (st, some UsePosts.DbErr.notFound)) ∧
    (∀ (st : UsePosts.HookState) (dragId dropId : Nat) (now : String) (failAt : Option Nat),
      (st.posts.find? (fun p => p.id = dragId) = none ∨
        st.posts.find? (fun p => p.id = dropId) = none) →
      FeedEditorPage.handleSwapPosts st dragId dropId now failAt = (st, none)) := by
  constructor
  · intro st postId1 postId2 now failAt h
    cases h1 : st.posts.find? (fun p => p.id = postId1) with
    | none => simp [UsePosts.swapPosts, h1]
    | some p1 =>
      cases h2 : st.posts.find? (fun p => p.id = postId2) with
      | none => simp [UsePosts.swapPosts, h1, h2]
      | some p2 =>
        rcases h with h | h
        · simp [h1] at h
        · simp [h2] at h
  · intro st dragId dropId now failAt h
    cases h1 : st.posts.find? (fun p => p.id = dragId) with
    | none => simp [FeedEditorPage.handleSwapPosts, h1]
    | some p1 =>
      cases h2 : st.posts.find? (fun p => p.id = dropId) with
      | none => simp [FeedEditorPage.handleSwapPosts, h1, h2]
      | some p2 =>
        rcases h with h | h
        · simp [h1] at h
        · simp [h2] at h

/-- Witness for the amended C9: a concrete swap with a missing id makes the
hook fail with notFound and leave the state untouched. -/
theorem c9_not_found_amended_witness :
    UsePosts.swapPosts Ex.stGood 1 99 "t1" none = (Ex.stGood, some UsePosts.DbErr.notFound) :=
  c9_not_found_amended.1 Ex.stGood 1 99 "t1" none (Or.inr (by decide))

namespace UsePosts

lemma sortByPosition_sorted (l : List Post) : SortedByPos (sortByPosition l) := by
  haveI h1 : IsTotal Post (fun a b : Post => a.position ≤ b.position) :=
    ⟨fun a b => le_total a.position b.position⟩
  haveI h2 : IsTrans Post (fun a b : Post => a.position ≤ b.position) :=
    ⟨fun a b c hab hbc => le_trans hab hbc⟩
  exact List.sorted_insertionSort _ l

end UsePosts

/-- C10: the cached post list of the stable-id hook is in ascending position
order after every successful createPost, updatePost and swapPosts call (each
success path rebuilds the cache through the position sort), in particular
whenever it was sorted before the call. -/
theorem c10_cache_sorted (st : UsePosts.HookState)
    (hsorted : UsePosts.SortedByPos st.posts) :
    (∀ (position : Int) (caption scheduledTime : Option String) (newId : Nat) (now : String),
      (UsePosts.createPost st position caption scheduledTime newId now).2 = none →
      UsePosts.SortedByPos
        (UsePosts.createPost st position caption scheduledTime newId now).1.posts) ∧
    (∀ (i : Nat) (u : UsePosts.PostUpdates) (now : String),
      (UsePosts.updatePost st i u now).2 = none →
      UsePosts.SortedByPos (UsePosts.updatePost st i u now).1.posts) ∧
    (∀ (postId1 postId2 : Nat) (now : String) (failAt : Option Nat),
      (UsePosts.swapPosts st postId1 postId2 now failAt).2 = none →
      UsePosts.SortedByPos (UsePosts.swapPosts st postId1 postId2 now failAt).1.posts) := by
  refine ⟨?_, ?_, ?_⟩
  · intro position caption scheduledTime newId now hsucc
    simp only [UsePosts.createPost] at hsucc ⊢
    split at hsucc
    · simp at hsucc
    · rename_i fid hfid
      split at hsucc
      · simp at hsucc
      · rename_i h1
        split at hsucc
        · simp at hsucc
        · rename_i h2
          simp only [hfid]
          rw [if_neg h1, if_neg h2]
          exact UsePosts.sortByPosition_sorted _
  · intro i u now hsucc
    simp only [UsePosts.updatePost] at hsucc ⊢
    split at hsucc
    · simp at hsucc
    · rename_i row hfind
      split at hsucc
      · simp at hsucc
      · rename_i hc
        rw [if_neg hc]
        exact UsePosts.sortByPosition_sorted _
  · intro postId1 postId2 now failAt hsucc
    simp only [UsePosts.swapPosts] at hsucc ⊢
    split at hsucc
    · rename_i p1 p2 hf1 hf2
      split at hsucc
      · simp at hsucc
      · rename_i he
        simp [hf1, hf2, he]
        exact UsePosts.sortByPosition_sorted _
    all_goals simp at hsucc

/-- Witness for C10: a concrete successful swap on a sorted cache leaves the
cache sorted. -/
theorem c10_cache_sorted_witness :
    UsePosts.SortedByPos (UsePosts.swapPosts Ex.stGood 1 2 "t1" none).1.posts :=
  (c10_cache_sorted Ex.stGood (by decide)).2.2 1 2 "t1" none (by decide)
